import Mathlib

/-!
Shallow embedding of the core of `src/worker.js` (ShareGPT Cloudflare Worker):
the parse cascade (`isValidConversationJSON`, `parseJSONConversation`,
`parseHtmlContent`), the two sanitizers (`sanitizeHtmlContent`,
`cleanHtmlContent`), the content normalizer (`preprocessContent`), the unique-ID
allocator (`generateUniqueId`), the rate limiter (`checkRateLimit`) and the POST
handler control flow (`handlePost`).

Strings are modelled as `List Char` (wrapped into `String` at the interfaces).
JavaScript's `String.prototype.replace` with a global regex is modelled by
fuel-indexed left-to-right scanners (`scanDel`, `scanRep`, `scanLine`): at each
position the matcher either yields the length of the (leftmost, per the source
regex's greedy/lazy semantics) match starting there, in which case the match is
replaced and scanning resumes after it, or scanning advances one character.
Each concrete regex of the source is translated into an explicit matcher
function; the fuel is the string length, which suffices because every match
consumes at least one character.
-/

set_option maxHeartbeats 1000000

namespace ShareGPT

/-- ASCII lower-casing, as performed by `String.prototype.toLowerCase` and by
case-insensitive (`i` flag) regex matching on the ASCII patterns used in the
source. -/
def lowerCh (c : Char) : Char :=
  if 65 ≤ c.toNat ∧ c.toNat ≤ 90 then Char.ofNat (c.toNat + 32) else c

/-- The character class `\s` of JavaScript regexes (also the whitespace set of
`String.prototype.trim`). -/
def isJsSpace (c : Char) : Bool :=
  c.toNat == 32 || c.toNat == 9 || c.toNat == 10 || c.toNat == 11 ||
  c.toNat == 12 || c.toNat == 13 || c.toNat == 160 || c.toNat == 0x1680 ||
  (0x2000 ≤ c.toNat && c.toNat ≤ 0x200a) || c.toNat == 0x2028 ||
  c.toNat == 0x2029 || c.toNat == 0x202f || c.toNat == 0x205f ||
  c.toNat == 0x3000 || c.toNat == 0xfeff

/-- JavaScript `LineTerminator` characters: the positions recognized by `^`/`$`
under the `m` flag, and the characters excluded by `.`. -/
def isLineTerm (c : Char) : Bool :=
  c == '\n' || c == '\r' || c.toNat == 0x2028 || c.toNat == 0x2029

/-- The character class `\w` (`[A-Za-z0-9_]`). -/
def isWordCh (c : Char) : Bool :=
  (65 ≤ c.toNat && c.toNat ≤ 90) || (97 ≤ c.toNat && c.toNat ≤ 122) ||
  (48 ≤ c.toNat && c.toNat ≤ 57) || c == '_'

/-- The character class `\d` (`[0-9]`). -/
def isDigitCh (c : Char) : Bool :=
  48 ≤ c.toNat && c.toNat ≤ 57

/-- ASCII lower-casing of a character list (`String.prototype.toLowerCase`). -/
def lowerL (s : List Char) : List Char :=
  s.map lowerCh

/-- Does `s` start with the (lowercase-given) pattern `pat`, compared
case-insensitively? Models matching a literal under the regex `i` flag. -/
def ciStarts : List Char → List Char → Bool
  | [], _ => true
  | _ :: _, [] => false
  | p :: ps, c :: cs => (lowerCh c == p) && ciStarts ps cs

/-- Does `s` start with the literal pattern `pat` (case-sensitive)? -/
def litStarts : List Char → List Char → Bool
  | [], _ => true
  | _ :: _, [] => false
  | p :: ps, c :: cs => (c == p) && litStarts ps cs

/-- Index of the first case-insensitive occurrence of `pat` in `s`. -/
def findCi (pat : List Char) : List Char → Option Nat
  | [] => if ciStarts pat [] then some 0 else none
  | c :: cs => if ciStarts pat (c :: cs) then some 0 else (findCi pat cs).map (· + 1)

/-- Index of the first literal occurrence of `pat` in `s`. -/
def findLit (pat : List Char) : List Char → Option Nat
  | [] => if litStarts pat [] then some 0 else none
  | c :: cs => if litStarts pat (c :: cs) then some 0 else (findLit pat cs).map (· + 1)

/-- `String.prototype.includes` (case-sensitive substring test). -/
def containsLit (pat s : List Char) : Bool :=
  (findLit pat s).isSome

/-- Case-insensitive substring test (used for `toLowerCase().includes(...)`
composites and for `[^"]*message[^"]*` with the `i` flag). -/
def containsCi (pat s : List Char) : Bool :=
  (findCi pat s).isSome

/-- Global-replace-by-deletion scanner: models `s.replace(re, '')` for a global
regex `re` whose matches are given by `m` (match length at the current
position; every match consumes at least one character). -/
def scanDel (m : List Char → Option Nat) : Nat → List Char → List Char
  | _, [] => []
  | 0, s => s
  | fuel + 1, c :: cs =>
    match m (c :: cs) with
    | some n => scanDel m fuel (cs.drop (n - 1))
    | none => c :: scanDel m fuel cs

/-- `s.replace(re, '')` with fuel instantiated to the string length. -/
def jsDel (m : List Char → Option Nat) (s : List Char) : List Char :=
  scanDel m s.length s

/-- Global-replace scanner: models `s.replace(re, rep)`; the matcher returns
the match length together with the replacement text. -/
def scanRep (m : List Char → Option (Nat × List Char)) : Nat → List Char → List Char
  | _, [] => []
  | 0, s => s
  | fuel + 1, c :: cs =>
    match m (c :: cs) with
    | some (n, r) => r ++ scanRep m fuel (cs.drop (n - 1))
    | none => c :: scanRep m fuel cs

/-- `s.replace(re, rep)` with fuel instantiated to the string length. -/
def jsRep (m : List Char → Option (Nat × List Char)) (s : List Char) : List Char :=
  scanRep m s.length s

/-- Line-anchored global-replace scanner: models `s.replace(re, rep)` for a
`^`-anchored regex with the `gm` flags. The matcher is only consulted at
line-start positions (start of string, or just after a `'\n'`). -/
def scanLine (m : List Char → Option (Nat × List Char)) : Nat → Bool → List Char → List Char
  | _, _, [] => []
  | 0, _, s => s
  | fuel + 1, atLS, c :: cs =>
    match (if atLS then m (c :: cs) else none) with
    | some (n, r) =>
      r ++ scanLine m fuel (((c :: cs).get? (n - 1)).any isLineTerm) (cs.drop (n - 1))
    | none => c :: scanLine m fuel (isLineTerm c) cs

/-- Line-anchored `s.replace(re, rep)` with fuel instantiated to the length. -/
def jsLine (m : List Char → Option (Nat × List Char)) (s : List Char) : List Char :=
  scanLine m s.length true s

/-- Matcher for the regex `<TAG[^>]*>[\s\S]*?<\/TAG>` (flags `gi`), the shape
of the four dangerous-block removals in `sanitizeHtmlContent` and
`cleanHtmlContent` (`script`, `style`, `iframe`, `noscript`). `[^>]*` is
greedy but cannot pass a `>`, so it runs to the first `>`; the lazy body runs
to the first case-insensitive occurrence of the closing tag. -/
def tagBlockM (tag : List Char) (s : List Char) : Option Nat :=
  if ciStarts ('<' :: tag) s then
    let rest := s.drop (tag.length + 1)
    let inner := rest.takeWhile (· != '>')
    if inner.length < rest.length then
      let body := rest.drop (inner.length + 1)
      match findCi ('<' :: '/' :: (tag ++ ['>'])) body with
      | some k => some (tag.length + 1 + inner.length + 1 + k + (tag.length + 3))
      | none => none
    else none
  else none

/-- Matcher for `\s+on\w+="[^"]*"` (with `q = '"'`) and `\s+on\w+='[^']*'`
(with `q = '\''`), flags `gi`: the inline event-handler attribute removals of
`sanitizeHtmlContent`. -/
def onAttrM (q : Char) (s : List Char) : Option Nat :=
  let ws := s.takeWhile isJsSpace
  if ws.isEmpty then none
  else
    let r1 := s.drop ws.length
    if ciStarts ['o', 'n'] r1 then
      let r2 := r1.drop 2
      let w := r2.takeWhile isWordCh
      if w.isEmpty then none
      else
        match r2.drop w.length with
        | '=' :: rest =>
          match rest with
          | q0 :: rest2 =>
            if q0 = q then
              let v := rest2.takeWhile (· != q)
              if v.length < rest2.length then
                some (ws.length + w.length + v.length + 5)
              else none
            else none
          | [] => none
        | _ => none
    else none

/-- Matcher for the literal regex `javascript:` (flags `gi`). -/
def jsUriM (s : List Char) : Option Nat :=
  if ciStarts "javascript:".data s then some 11 else none

/-- `sanitizeHtmlContent` of src/worker.js on the character-list level: the
seven global replacements, in source order, each with the empty replacement. -/
def sanitizeL (s : List Char) : List Char :=
  let s1 := jsDel (tagBlockM "script".data) s
  let s2 := jsDel (tagBlockM "style".data) s1
  let s3 := jsDel (tagBlockM "iframe".data) s2
  let s4 := jsDel (tagBlockM "noscript".data) s3
  let s5 := jsDel (onAttrM '"') s4
  let s6 := jsDel (onAttrM '\'') s5
  jsDel jsUriM s6

/-- `sanitizeHtmlContent(html)`: the falsy/non-string guard returns `''`;
otherwise the seven replacements of `sanitizeL`. -/
def sanitizeHtmlContent (html : String) : String :=
  if html = "" then "" else ⟨sanitizeL html.data⟩

/-- Wraps a per-line predicate into a `^...$`-anchored `gm` matcher whose match
is the whole line content (everything up to the next `'\n'`); used for the
line-anchored removals whose pattern cannot match an empty line. -/
def lineFullM (p : List Char → Bool) (s : List Char) : Option (Nat × List Char) :=
  let line := s.takeWhile (fun c => !isLineTerm c)
  if p line then some (line.length, []) else none

/-- Does a full line match `-{minDash,}\d{minDigit,}-{0,2}`? (the multipart
boundary patterns of `preprocessContent` and `cleanHtmlContent`). -/
def dashDigitLine (minDash minDigit : Nat) (line : List Char) : Bool :=
  let d1 := line.takeWhile (· == '-')
  let r1 := line.drop d1.length
  let d2 := r1.takeWhile isDigitCh
  let r2 := r1.drop d2.length
  let d3 := r2.takeWhile (· == '-')
  decide (minDash ≤ d1.length) && decide (minDigit ≤ d2.length) &&
    decide (d3.length ≤ 2) && (r2.drop d3.length).isEmpty

/-- Does a full line match `name=".*?"`? (`preprocessContent`). -/
def nameQuoteLine (line : List Char) : Bool :=
  litStarts "name=\"".data line &&
    (let r := line.drop 6
     !r.isEmpty && r.getLast? == some '"')

/-- Is the current position a `$` position under the `m` flag (end of string,
or just before a `'\n'`)? -/
def dollarAt : List Char → Bool
  | [] => true
  | c :: _ => isLineTerm c

/-- Longest `p`, `1 ≤ p ≤ bound`, such that position `p` in `s` is a `$`
position: the backtracking of a greedy `\s*` against the `$` anchor. -/
def bestWsLen (s : List Char) : Nat → Option Nat
  | 0 => none
  | p + 1 => if dollarAt (s.drop (p + 1)) then some (p + 1) else bestWsLen s p

/-- Matcher for `^\s*$` (flags `gm`) in `preprocessContent`: at a line start,
the greedy `\s*` (which may cross line breaks) backtracks to the longest
whitespace prefix ending at a `$` position. Zero-length matches are no-ops of
the replacement and are reported as `none`. -/
def allWsM (s : List Char) : Option (Nat × List Char) :=
  match bestWsLen s (s.takeWhile isJsSpace).length with
  | some p => some (p, [])
  | none => none

/-- Matcher for `\n{3,}` (greedy), replaced by two newlines. -/
def nl3M (s : List Char) : Option (Nat × List Char) :=
  let r := s.takeWhile (· == '\n')
  if 3 ≤ r.length then some (r.length, ['\n', '\n']) else none

/-- `String.prototype.trim`. -/
def trimL (s : List Char) : List Char :=
  ((s.dropWhile isJsSpace).reverse.dropWhile isJsSpace).reverse

/-- `preprocessContent` of src/worker.js on the character-list level: strips
multipart boundary/header lines, empties whitespace-only lines, collapses
3+ newlines to 2, and trims. -/
def preprocessL (s : List Char) : List Char :=
  let s1 := jsLine (lineFullM (dashDigitLine 20 15)) s
  let s2 := jsLine (lineFullM (litStarts "Content-Disposition:".data)) s1
  let s3 := jsLine (lineFullM (litStarts "Content-Type:".data)) s2
  let s4 := jsLine (lineFullM (litStarts "Content-Length:".data)) s3
  let s5 := jsLine (lineFullM (litStarts "boundary=".data)) s4
  let s6 := jsLine (lineFullM nameQuoteLine) s5
  let s7 := jsLine allWsM s6
  let s8 := jsRep nl3M s7
  trimL s8

/-- `preprocessContent(content)`: non-string/falsy input yields `''`; the
argument is an `Option` because the POST handler may feed it
`body.html || body.content`, which can be absent. -/
def preprocessContent (content : Option String) : String :=
  match content with
  | none => ""
  | some s => if s = "" then "" else ⟨preprocessL s.data⟩

/-- Matcher for `<br\s*\/?>` (flags `gi`), replaced by a newline. -/
def brM (s : List Char) : Option (Nat × List Char) :=
  if ciStarts "<br".data s then
    let r := s.drop 3
    let ws := r.takeWhile isJsSpace
    match r.drop ws.length with
    | '/' :: '>' :: _ => some (3 + ws.length + 2, ['\n'])
    | '>' :: _ => some (3 + ws.length + 1, ['\n'])
    | _ => none
  else none

/-- Matcher for a case-insensitive literal pattern with a fixed replacement. -/
def ciLitM (pat rep : List Char) (s : List Char) : Option (Nat × List Char) :=
  if ciStarts pat s then some (pat.length, rep) else none

/-- Matcher for a case-sensitive literal pattern with a fixed replacement. -/
def litM (pat rep : List Char) (s : List Char) : Option (Nat × List Char) :=
  if litStarts pat s then some (pat.length, rep) else none

/-- Matcher for `<\/h[1-6]>` (flags `gi`), replaced by a paragraph break. -/
def hCloseM (s : List Char) : Option (Nat × List Char) :=
  if ciStarts "</h".data s then
    match s.drop 3 with
    | d :: '>' :: _ =>
      if 49 ≤ d.toNat ∧ d.toNat ≤ 54 then some (5, ['\n', '\n']) else none
    | _ => none
  else none

/-- Matcher for `<li[^>]*>` (flags `gi`), replaced by a bullet prefix. -/
def liOpenM (s : List Char) : Option (Nat × List Char) :=
  if ciStarts "<li".data s then
    let r := s.drop 3
    let inner := r.takeWhile (· != '>')
    if inner.length < r.length then some (3 + inner.length + 1, ['•', ' ']) else none
  else none

/-- Matcher for `<[^>]*>` (flag `g`): any remaining tag, deleted. -/
def anyTagM (s : List Char) : Option (Nat × List Char) :=
  match s with
  | c :: r =>
    if c = '<' then
      let inner := r.takeWhile (· != '>')
      if inner.length < r.length then some (inner.length + 2, []) else none
    else none
  | [] => none

/-- Matcher for `[ \t]+`, replaced by a single space. -/
def spTabM (s : List Char) : Option (Nat × List Char) :=
  let r := s.takeWhile (fun c => c == ' ' || c == '\t')
  if r.isEmpty then none else some (r.length, [' '])

/-- Matcher for `^ +` (flags `gm`): leading spaces of a line, deleted. -/
def leadSpM (s : List Char) : Option (Nat × List Char) :=
  let r := s.takeWhile (· == ' ')
  if r.isEmpty then none else some (r.length, [])

/-- Matcher for ` +$` (flags `gm`): a space run ending at a line end. -/
def trailSpM (s : List Char) : Option (Nat × List Char) :=
  let r := s.takeWhile (· == ' ')
  if !r.isEmpty && dollarAt (s.drop r.length) then some (r.length, []) else none

/-- `/^\n+/` (no `g`, no `m`): drop the leading newline run. -/
def dropLeadNl (s : List Char) : List Char :=
  s.dropWhile (· == '\n')

/-- `/\n+$/` (no `g`, no `m`): drop the trailing newline run. -/
def dropTrailNl (s : List Char) : List Char :=
  (s.reverse.dropWhile (· == '\n')).reverse

/-- Matcher for `[​-‍﻿]` (flag `g`): zero-width characters. -/
def zeroWidthM (s : List Char) : Option Nat :=
  match s with
  | c :: _ =>
    if (0x200b ≤ c.toNat ∧ c.toNat ≤ 0x200d) ∨ c.toNat = 0xfeff then some 1 else none
  | [] => none

/-- Matcher for `[^\S\n]+` (flag `g`): non-newline whitespace runs, replaced
by a single space. -/
def nonNlWsM (s : List Char) : Option (Nat × List Char) :=
  let r := s.takeWhile (fun c => isJsSpace c && c != '\n')
  if r.isEmpty then none else some (r.length, [' '])

/-- `cleanHtmlContent` of src/worker.js on the character-list level: the full
markup-stripping pipeline, every replacement in source order. -/
def cleanL (s : List Char) : List Char :=
  let a1 := jsLine (lineFullM (dashDigitLine 10 10)) s
  let a2 := jsLine (lineFullM (litStarts "Content-".data)) a1
  let a3 := jsLine (lineFullM (litStarts "boundary=".data)) a2
  let a4 := jsDel (tagBlockM "script".data) a3
  let a5 := jsDel (tagBlockM "style".data) a4
  let a6 := jsDel (tagBlockM "iframe".data) a5
  let a7 := jsDel (tagBlockM "noscript".data) a6
  let a8 := jsRep brM a7
  let a9 := jsRep (ciLitM "</p>".data ['\n', '\n']) a8
  let a10 := jsRep (ciLitM "</div>".data ['\n']) a9
  let a11 := jsRep hCloseM a10
  let a12 := jsRep liOpenM a11
  let a13 := jsRep (ciLitM "</li>".data ['\n']) a12
  let a14 := jsRep anyTagM a13
  let a15 := jsRep (litM "&nbsp;".data [' ']) a14
  let a16 := jsRep (litM "&lt;".data ['<']) a15
  let a17 := jsRep (litM "&gt;".data ['>']) a16
  let a18 := jsRep (litM "&amp;".data ['&']) a17
  let a19 := jsRep (litM "&quot;".data ['"']) a18
  let a20 := jsRep (litM "&#x27;".data ['\'']) a19
  let a21 := jsRep (litM "&#x2F;".data ['/']) a20
  let a22 := jsRep (litM "&#39;".data ['\'']) a21
  let a23 := jsRep (litM "&hellip;".data ['.', '.', '.']) a22
  let a24 := jsRep (litM "&mdash;".data ['—']) a23
  let a25 := jsRep (litM "&ndash;".data ['–']) a24
  let a26 := jsRep (litM "\r\n".data ['\n']) a25
  let a27 := jsRep (litM "\r".data ['\n']) a26
  let a28 := jsRep nl3M a27
  let a29 := jsRep spTabM a28
  let a30 := jsLine leadSpM a29
  let a31 := jsRep trailSpM a30
  let a32 := dropLeadNl a31
  let a33 := dropTrailNl a32
  let a34 := jsDel zeroWidthM a33
  let a35 := jsRep nonNlWsM a34
  trimL a35

/-- `cleanHtmlContent(content)`: falsy/non-string guard, then the pipeline. -/
def cleanHtmlContent (content : String) : String :=
  if content = "" then "" else ⟨cleanL content.data⟩

/-- JSON values, as produced by `JSON.parse`. -/
inductive Json where
  | null
  | bool (b : Bool)
  | num (n : Int)
  | str (s : String)
  | arr (elems : List Json)
  | obj (fields : List (String × Json))

/-- Property lookup on a parsed JSON object: `JSON.parse` keeps the last
binding of a duplicated key. -/
def lookupLast (k : String) : List (String × Json) → Option Json
  | [] => none
  | (k', v) :: rest =>
    match lookupLast k rest with
    | some r => some r
    | none => if k' = k then some v else none

/-- JavaScript property access `item[k]` on a parsed JSON value (`undefined`
is `none`; arrays and primitives have no `from`/`value` properties). -/
def jprop : Json → String → Option Json
  | Json.obj fs, k => lookupLast k fs
  | _, _ => none

/-- `item && typeof item === 'object'` on a parsed JSON value (arrays are
objects in JavaScript; `null` is falsy). -/
def isObjectLike : Json → Bool
  | Json.obj _ => true
  | Json.arr _ => true
  | _ => false

/-- The value of a property when it is a string (`typeof x === 'string'`). -/
def jstr : Option Json → Option String
  | some (Json.str s) => some s
  | _ => none

/-- The per-element check of `isValidConversationJSON`. -/
def validConversationItem (item : Json) : Bool :=
  isObjectLike item &&
    (match jstr (jprop item "from"), jstr (jprop item "value") with
     | some f, some _ => f == "human" || f == "gpt" || f == "user" || f == "assistant"
     | _, _ => false)

/-- `isValidConversationJSON(content)` of src/worker.js, over the outcome of
`JSON.parse(content)` (`none` models a parse exception): a non-empty array
whose every element has string `from`/`value` with `from` in the synonym
set. -/
def isValidConversationJSON : Option Json → Bool
  | some (Json.arr items) => !items.isEmpty && items.all validConversationItem
  | _ => false

/-- A canonical message `{role, content}`. -/
structure Message where
  role : String
  content : String
  deriving DecidableEq

/-- The result object of the parse cascade. `messageCount` is an `Option`
because the `catch` branches of the source return objects without a
`messageCount` field. -/
structure ParseResult where
  messages : List Message
  format : String
  messageCount : Option Nat
  hadError : Bool
  deriving DecidableEq

/-- The role mapping of `parseJSONConversation`:
`(item.from === 'human' || item.from === 'user') ? 'user' : 'assistant'`. -/
def jsonItemRole (item : Json) : String :=
  if jstr (jprop item "from") = some "human" ∨ jstr (jprop item "from") = some "user"
  then "user" else "assistant"

/-- `sanitizeHtmlContent(item.value)`; a missing or non-string `value` hits
the sanitizer's non-string guard and yields `''`. -/
def jsonItemContent (item : Json) : String :=
  match jstr (jprop item "value") with
  | some v => sanitizeHtmlContent v
  | none => ""

/-- `parseJSONConversation(content)` of src/worker.js: maps the parsed array
through the role/sanitizer mapping; a `JSON.parse` throw or a `.map` on a
non-array lands in the `catch` branch, which wraps the cleaned raw text and
has no `messageCount` field. -/
def parseJSONConversation (jp : Option Json) (content : String) : ParseResult :=
  match jp with
  | some (Json.arr items) =>
    let messages := items.map (fun item => Message.mk (jsonItemRole item) (jsonItemContent item))
    { messages := messages, format := "json", messageCount := some messages.length,
      hadError := false }
  | _ =>
    { messages := [Message.mk "unknown" (cleanHtmlContent content)], format := "fallback",
      messageCount := none, hadError := true }

/-- The outcome of the HTMLRewriter pass of tier 2 (`parseWithHTMLRewriter`
with the `userTexts`/`assistantTexts` tracks): a streaming CSS-selector
engine of the Workers platform, abstracted as the final value of each track
(`none` when no element matched or the pass rejected). -/
structure HRResult where
  userTexts : Option String
  assistantTexts : Option String

/-- The tier-2 message construction from the HTMLRewriter track values (empty
extracted strings are falsy and are skipped). -/
def hrMessages (hr : HRResult) : List Message :=
  (match hr.userTexts with
   | some t => if t ≠ "" then [Message.mk "user" (cleanHtmlContent t)] else []
   | none => []) ++
  (match hr.assistantTexts with
   | some t => if t ≠ "" then [Message.mk "assistant" (cleanHtmlContent t)] else []
   | none => [])

/-- Global-match scanner: models `[...s.matchAll(re)]` for a global regex,
collecting per-match data. -/
def scanMatches {α : Type} (m : List Char → Option (Nat × α)) : Nat → List Char → List α
  | _, [] => []
  | 0, _ => []
  | fuel + 1, c :: cs =>
    match m (c :: cs) with
    | some (n, a) => a :: scanMatches m fuel (cs.drop (n - 1))
    | none => scanMatches m fuel cs

/-- Global-match scanner for a `^`-anchored regex with the `m` flag: the
matcher is consulted only at line-start positions. -/
def scanMatchesLS {α : Type} (m : List Char → Option (Nat × α)) : Nat → Bool → List Char → List α
  | _, _, [] => []
  | 0, _, _ => []
  | fuel + 1, atLS, c :: cs =>
    match (if atLS then m (c :: cs) else none) with
    | some (n, a) =>
      a :: scanMatchesLS m fuel (((c :: cs).get? (n - 1)).any isLineTerm) (cs.drop (n - 1))
    | none => scanMatchesLS m fuel (isLineTerm c) cs

/-- Match data for one regex match: the whole match `match[0]`, the first
capture group `match[1]`, and the second capture group `match[2]` (absent for
a one-group pattern). -/
abbrev MatchData : Type := List Char × List Char × Option (List Char)

/-- At a position inside the `[^>]*` region of pattern (a): does the literal
`data-message-author-role="` followed by `user` or `assistant` and a closing
quote start here? Returns the captured role text (case preserved). -/
def roleAttrAt (t : List Char) : Option (List Char) :=
  if ciStarts "data-message-author-role=\"".data t then
    let r := t.drop 26
    if ciStarts "user".data r && (r.get? 4 == some '"') then some (r.take 4)
    else if ciStarts "assistant".data r && (r.get? 9 == some '"') then some (r.take 9)
    else none
  else none

/-- The backtracking of a greedy `[^>]*` before a mandatory sub-pattern:
tries the sub-pattern matcher at offsets `bound, bound-1, ..., 0` of `s` and
keeps the first (i.e. rightmost) success, together with its offset. -/
def lastPosIdx {α : Type} (f : List Char → Option α) (s : List Char) : Nat → Option (Nat × α)
  | 0 => (f s).map (fun a => (0, a))
  | j + 1 =>
    match (f (s.drop (j + 1))).map (fun a => (j + 1, a)) with
    | some p => some p
    | none => lastPosIdx f s j

/-- Matcher for pattern (a) of the regex tier:
`<div[^>]*data-message-author-role="(user|assistant)"[^>]*>([\s\S]*?)<\/div>`
(flags `gi`). Group 1 is the role, group 2 the body. -/
def divRoleM (s : List Char) : Option (Nat × MatchData) :=
  if ciStarts "<div".data s then
    let rest := s.drop 4
    let inner := rest.takeWhile (· != '>')
    if inner.length < rest.length then
      match lastPosIdx roleAttrAt rest inner.length with
      | some (_, role) =>
        let body0 := rest.drop (inner.length + 1)
        match findCi "</div>".data body0 with
        | some k =>
          let n := 4 + inner.length + 1 + k + 6
          some (n, (s.take n, role, some (body0.take k)))
        | none => none
      | none => none
    else none
  else none

/-- At a `class="` occurrence inside pattern (b): checks
`class="[^"]*message[^"]*"` (the value may contain `>`), then the trailing
`[^>]*>` and the lazy body up to `</div>`. Returns the length from the
occurrence to the end of the whole match, and the captured body. -/
def classMatchAt (t : List Char) : Option (Nat × List Char) :=
  if ciStarts "class=\"".data t then
    let v := (t.drop 7).takeWhile (· != '"')
    if v.length < (t.drop 7).length then
      if containsCi "message".data v then
        let afterQ := t.drop (7 + v.length + 1)
        let u := afterQ.takeWhile (· != '>')
        if u.length < afterQ.length then
          let body0 := afterQ.drop (u.length + 1)
          match findCi "</div>".data body0 with
          | some k => some (7 + v.length + 1 + u.length + 1 + k + 6, body0.take k)
          | none => none
        else none
      else none
    else none
  else none

/-- Matcher for pattern (b) of the regex tier:
`<div[^>]*class="[^"]*message[^"]*"[^>]*>([\s\S]*?)<\/div>` (flags `gi`).
Only one capture group: the body. -/
def divClassM (s : List Char) : Option (Nat × MatchData) :=
  if ciStarts "<div".data s then
    let rest := s.drop 4
    let inner := rest.takeWhile (· != '>')
    match lastPosIdx classMatchAt rest inner.length with
    | some (j, (len, body)) =>
      let n := 4 + j + len
      some (n, (s.take n, body, none))
    | none => none
  else none

/-- The alternation `(?:User|Human|Assistant|AI):` (case-insensitive, in
source order), returning the label length. -/
def labelColonLen (t : List Char) : Option Nat :=
  if ciStarts "user:".data t then some 4
  else if ciStarts "human:".data t then some 5
  else if ciStarts "assistant:".data t then some 9
  else if ciStarts "ai:".data t then some 2
  else none

/-- Matcher for pattern (c) of the regex tier:
`^(User|Human|Assistant|AI):\s*([\s\S]*?)(?=^(?:User|Human|Assistant|AI):|$)`
(flags `gmi`), consulted at line starts only. The greedy `\s*` may cross line
breaks; the lazy body stops at the first position where the lookahead holds:
either a line end (`$` under `m`) or a line start carrying another label. -/
def roleLineM (s : List Char) : Option (Nat × MatchData) :=
  match labelColonLen s with
  | some lab =>
    let rest := s.drop (lab + 1)
    let ws := rest.takeWhile isJsSpace
    let rest2 := rest.drop ws.length
    let body :=
      if (ws.getLast?.any isLineTerm) && (labelColonLen rest2).isSome then []
      else rest2.takeWhile (fun c => !isLineTerm c)
    let n := lab + 1 + ws.length + body.length
    some (n, (s.take n, s.take lab, some body))
  | none => none

/-- `match[0].toLowerCase().includes('user') || ...includes('human')`:
the role inference used when only one capture group is truthy. -/
def inferRole (m0 : List Char) : String :=
  if containsLit "user".data (lowerL m0) || containsLit "human".data (lowerL m0)
  then "user" else "assistant"

/-- The per-match message construction of the regex tier: with two truthy
groups, role is `match[1].toLowerCase()` and content the cleaned `match[2]`;
with only `match[1]` truthy, role is inferred from the whole match and
content is the cleaned `match[1]`; otherwise no message is pushed. -/
def buildRegexMessage : MatchData → Option Message
  | (m0, g1, g2) =>
    if g1.isEmpty then none
    else
      match g2 with
      | some b =>
        if b.isEmpty then some (Message.mk (inferRole m0) (cleanHtmlContent ⟨g1⟩))
        else some (Message.mk ⟨lowerL g1⟩ (cleanHtmlContent ⟨b⟩))
      | none => some (Message.mk (inferRole m0) (cleanHtmlContent ⟨g1⟩))

/-- All matches of pattern (a) in `s`. -/
def patternAMatches (s : List Char) : List MatchData :=
  scanMatches divRoleM s.length s

/-- All matches of pattern (b) in `s`. -/
def patternBMatches (s : List Char) : List MatchData :=
  scanMatches divClassM s.length s

/-- All matches of pattern (c) in `s`. -/
def patternCMatches (s : List Char) : List MatchData :=
  scanMatchesLS roleLineM s.length true s

/-- The regex tier of `parseHtmlContent`: the first pattern with at least one
match wins; its matches are turned into messages (falsy groups push
nothing). -/
def regexTierMessages (s : List Char) : List Message :=
  let mA := patternAMatches s
  if !mA.isEmpty then mA.filterMap buildRegexMessage
  else
    let mB := patternBMatches s
    if !mB.isEmpty then mB.filterMap buildRegexMessage
    else (patternCMatches s).filterMap buildRegexMessage

/-- `parseHtmlContent(html)` of src/worker.js: the four-tier cascade. `jp` is
the outcome of `JSON.parse(html)` and `hr` the outcome of the HTMLRewriter
pass (both platform built-ins, passed as parameters of the embedding). -/
def parseHtmlContent (jp : Option Json) (hr : HRResult) (html : String) : ParseResult :=
  if isValidConversationJSON jp then parseJSONConversation jp html
  else
    let tier2 :=
      if containsLit "data-message-author-role".data html.data ||
          containsLit "message-content".data html.data then
        hrMessages hr
      else []
    if !tier2.isEmpty then
      { messages := tier2, format := "htmlrewriter", messageCount := some tier2.length,
        hadError := false }
    else
      let msgs := regexTierMessages html.data
      let msgs' := if msgs.isEmpty then [Message.mk "unknown" (cleanHtmlContent html)] else msgs
      { messages := msgs', format := "parsed", messageCount := some msgs'.length,
        hadError := false }

/-- The ID alphabet of `generateUniqueId`:
`abcdefghijkmnpqrstuvwxyzABCDEFGHJKMNPQRSTUVWXYZ23456789`. -/
def idChars : List Char :=
  "abcdefghijkmnpqrstuvwxyzABCDEFGHJKMNPQRSTUVWXYZ23456789".data

/-- The candidate built on a given attempt: 8 characters indexed into
`idChars` by `Math.floor(Math.random() * chars.length)`, modelled by the
random stream `r` (one draw per character, 8 per attempt). -/
def candidateId (r : Nat → Fin idChars.length) (attempt : Nat) : String :=
  ⟨(List.range 8).map (fun i => idChars.get (r (8 * attempt + i)))⟩

/-- The retry loop of `generateUniqueId`: one existence check per attempt,
at most `remaining` further attempts. Returns the result together with the
number of existence checks performed. -/
def generateUniqueIdAux (store : String → Bool) (r : Nat → Fin idChars.length) :
    Nat → Nat → Except String String × Nat
  | _, 0 => (Except.error "Failed to generate unique ID", 0)
  | attempt, remaining + 1 =>
    let id := candidateId r attempt
    if store id then
      let rec' := generateUniqueIdAux store r (attempt + 1) remaining
      (rec'.1, rec'.2 + 1)
    else (Except.ok id, 1)

/-- `generateUniqueId(env)` of src/worker.js: `maxAttempts = 10`; `store`
models `env.sharegpt.get(id)` returning a truthy value (collision). -/
def generateUniqueId (store : String → Bool) (r : Nat → Fin idChars.length) :
    Except String String × Nat :=
  generateUniqueIdAux store r 0 10

/-- The decimal digits accumulated by `parseInt`. -/
def digitsToNat (ds : List Char) : Nat :=
  ds.foldl (fun acc c => acc * 10 + (c.toNat - 48)) 0

/-- JavaScript `parseInt(s)` for the decimal strings this program stores:
skips leading whitespace, accepts an optional sign, then a decimal-digit
prefix; `none` models `NaN`. (The hexadecimal `0x` prefix is not modelled:
the stored counters are always decimal.) -/
def jsParseInt (s : String) : Option Int :=
  let t := s.data.dropWhile isJsSpace
  let t2 := match t with
    | '-' :: rest => rest
    | '+' :: rest => rest
    | _ => t
  let sign : Int := match t with
    | '-' :: _ => -1
    | _ => 1
  let ds := t2.takeWhile isDigitCh
  if ds.isEmpty then none else some (sign * digitsToNat ds)

/-- `current && parseInt(current) >= limit` with `limit = 10` (`NaN >= 10`
is false; an absent or empty stored value is falsy). -/
def rateBlocked (current : Option String) : Bool :=
  match current with
  | none => false
  | some s =>
    if s = "" then false
    else
      match jsParseInt s with
      | some n => decide (10 ≤ n)
      | none => false

/-- `(parseInt(current) || 0)`. -/
def rateValue (current : Option String) : Int :=
  match current with
  | none => 0
  | some s => (jsParseInt s).getD 0

/-- `checkRateLimit(env, ip)` of src/worker.js for one client identity:
given the stored counter value, either throws (rejected, nothing written) or
returns the new counter value to store (admitted). -/
def checkRateLimit (current : Option String) : Except String String :=
  if rateBlocked current then Except.error "Rate limit exceeded. Please try again later."
  else Except.ok (toString (rateValue current + 1))

/-- The stored counter after `n` sequential requests of one identity inside a
single window, starting from an absent key: an admitted request stores the
incremented value, a rejected request leaves the counter unchanged. -/
def rateSeq : Nat → Option String
  | 0 => none
  | n + 1 =>
    match checkRateLimit (rateSeq n) with
    | Except.ok v => some v
    | Except.error _ => rateSeq n

/-- The observable outcome of `handlePost`. -/
inductive PostOutcome where
  | rateLimited
  | emptyContent
  | tooLarge
  | idFailed
  | stored (id : String) (parsed : ParseResult) (raw : String) (fmt : String)
  deriving DecidableEq

/-- Outcome of a POST, together with the rate counter as stored after the
request. -/
structure PostResult where
  rateCounter : Option String
  outcome : PostOutcome
  deriving DecidableEq

/-- `handlePost` of src/worker.js: rate-limit check (which writes the
incremented counter before anything else), normalization, the empty and
1 MiB guards, ID allocation, parse, store. `body` is the extracted
`body.html || body.content` (or the raw text body); `jp`/`hr` are the
platform outcomes fed to the cascade; `store`/`r` drive the allocator. -/
def handlePost (rl : Option String) (body : Option String) (jp : Option Json)
    (hr : HRResult) (store : String → Bool) (r : Nat → Fin idChars.length) : PostResult :=
  match checkRateLimit rl with
  | Except.error _ => { rateCounter := rl, outcome := PostOutcome.rateLimited }
  | Except.ok v =>
    let content := preprocessContent body
    if content = "" then { rateCounter := some v, outcome := PostOutcome.emptyContent }
    else if 1024 * 1024 < content.length then
      { rateCounter := some v, outcome := PostOutcome.tooLarge }
    else
      match (generateUniqueId store r).1 with
      | Except.error _ => { rateCounter := some v, outcome := PostOutcome.idFailed }
      | Except.ok id =>
        let parsed := parseHtmlContent jp hr content
        let fmt := if parsed.format = "" then "raw" else parsed.format
        { rateCounter := some v, outcome := PostOutcome.stored id parsed content fmt }

deriving instance DecidableEq for Except

/-- `s` contains no match of the pattern recognized by `m`: the matcher
rejects every (non-empty) suffix, i.e. no position of `s` starts a match. -/
def NoPat (m : List Char → Option Nat) (s : List Char) : Prop :=
  ∀ t, t <:+ s → t ≠ [] → m t = none

/-- The spec-side predicate for claim C1: a conversation item is rendered as
the message whose role follows the synonym table and whose content is the
markup-preserving sanitizer applied to the item's `value`. -/
def itemMessageSpec (item : Json) (msg : Message) : Prop :=
  ∃ f v, jstr (jprop item "from") = some f ∧ jstr (jprop item "value") = some v ∧
    msg.role = (if f = "human" ∨ f = "user" then "user" else "assistant") ∧
    msg.content = sanitizeHtmlContent v

/-- A plain alphanumeric character (ASCII letter or digit): text that none of
the cleaner's patterns can touch. -/
def isPlainAlnum (c : Char) : Bool :=
  (97 ≤ c.toNat && c.toNat ≤ 122) || (65 ≤ c.toNat && c.toNat ≤ 90) ||
    (48 ≤ c.toNat && c.toNat ≤ 57)

/-- A constantly-colliding key-value store (every `get` returns a value). -/
def storeAll : String → Bool := fun _ => true

/-- A degenerate random stream: always the first alphabet index. -/
def randZero : Nat → Fin idChars.length := fun _ => ⟨0, by decide⟩

/-! ## Scanner lemmas -/

theorem scanDel_length_le (m : List Char → Option Nat) :
    ∀ fuel s, (scanDel m fuel s).length ≤ s.length := by
  intro fuel
  induction fuel with
  | zero => intro s; cases s <;> simp [scanDel]
  | succ f ih =>
    intro s
    cases s with
    | nil => simp [scanDel]
    | cons c cs =>
      cases hm : m (c :: cs) with
      | some n =>
        have h1 := ih (cs.drop (n - 1))
        have h2 : (cs.drop (n - 1)).length ≤ cs.length := by
          simp [List.length_drop]
        simp only [scanDel, hm]
        simp only [List.length_cons]
        omega
      | none =>
        have := ih cs
        simp only [scanDel, hm, List.length_cons]
        omega

theorem scanDel_eq_self_of_length (m : List Char → Option Nat) :
    ∀ fuel s, (scanDel m fuel s).length = s.length → scanDel m fuel s = s := by
  intro fuel
  induction fuel with
  | zero => intro s _; cases s <;> simp [scanDel]
  | succ f ih =>
    intro s hlen
    cases s with
    | nil => simp [scanDel]
    | cons c cs =>
      cases hm : m (c :: cs) with
      | some n =>
        exfalso
        have h1 := scanDel_length_le m f (cs.drop (n - 1))
        have h2 : (cs.drop (n - 1)).length ≤ cs.length := by
          simp [List.length_drop]
        simp only [scanDel, hm, List.length_cons] at hlen
        omega
      | none =>
        simp only [scanDel, hm, List.length_cons] at hlen ⊢
        have := ih cs (by omega)
        rw [this]

theorem scanDel_no_match (m : List Char → Option Nat) :
    ∀ fuel s, scanDel m fuel s = s → s.length ≤ fuel →
      ∀ t, t <:+ s → t ≠ [] → m t = none := by
  intro fuel
  induction fuel with
  | zero =>
    intro s _ hlen t hts htne
    interval_cases hs : s.length
    · have : s = [] := List.length_eq_zero.mp hs
      subst this
      have : t = [] := List.eq_nil_of_suffix_nil hts
      exact absurd this htne
  | succ f ih =>
    intro s heq hlen t hts htne
    cases s with
    | nil =>
      have : t = [] := List.eq_nil_of_suffix_nil hts
      exact absurd this htne
    | cons c cs =>
      cases hm : m (c :: cs) with
      | some n =>
        exfalso
        have h1 := scanDel_length_le m f (cs.drop (n - 1))
        have h2 : (cs.drop (n - 1)).length ≤ cs.length := by
          simp [List.length_drop]
        have := congrArg List.length heq
        simp only [scanDel, hm, List.length_cons] at this
        omega
      | none =>
        rcases List.suffix_cons_iff.mp hts with h | h
        · subst h; exact hm
        · simp only [scanDel, hm, List.cons.injEq, true_and] at heq
          simp only [List.length_cons] at hlen
          exact ih cs heq (by omega) t h htne

theorem jsDel_length_le (m : List Char → Option Nat) (s : List Char) :
    (jsDel m s).length ≤ s.length :=
  scanDel_length_le m s.length s

theorem jsDel_eq_self_of_length (m : List Char → Option Nat) (s : List Char)
    (h : (jsDel m s).length = s.length) : jsDel m s = s :=
  scanDel_eq_self_of_length m s.length s h

theorem jsDel_no_match (m : List Char → Option Nat) (s : List Char)
    (h : jsDel m s = s) : NoPat m s :=
  scanDel_no_match m s.length s h (Nat.le_refl _)

/-! ## Character-level lemmas -/

theorem toNat_ofNat_valid {n : Nat} (h : n < 55296) : (Char.ofNat n).toNat = n := by
  have hv : n.isValidChar := Or.inl h
  simp [Char.ofNat, dif_pos hv, Char.ofNatAux, Char.toNat, UInt32.toNat]

theorem lowerCh_toNat (c : Char) :
    (lowerCh c).toNat = if 65 ≤ c.toNat ∧ c.toNat ≤ 90 then c.toNat + 32 else c.toNat := by
  unfold lowerCh
  split
  case isTrue h =>
    rw [toNat_ofNat_valid (by omega)]
  case isFalse h =>
    rfl

theorem char_toNat_inj {c d : Char} (h : c.toNat = d.toNat) : c = d := by
  rw [← Char.ofNat_toNat c, ← Char.ofNat_toNat d, h]

theorem lowerCh_beq_lt_eq_false {c : Char} (h : c ≠ '<') : (lowerCh c == '<') = false := by
  apply beq_eq_false_iff_ne.mpr
  intro he
  have ht : (lowerCh c).toNat = 60 := by rw [he]; decide
  rw [lowerCh_toNat] at ht
  split at ht
  · omega
  · exact h (char_toNat_inj (by rw [ht]; decide))

theorem plain_lowerCh {c : Char} (h : isPlainAlnum c = true) :
    isPlainAlnum (lowerCh c) = true := by
  simp only [isPlainAlnum, Bool.or_eq_true, Bool.and_eq_true, decide_eq_true_eq,
    lowerCh_toNat] at h ⊢
  split <;> omega

theorem plain_not_space {c : Char} (h : isPlainAlnum c = true) : isJsSpace c = false := by
  simp only [isPlainAlnum, Bool.or_eq_true, Bool.and_eq_true, decide_eq_true_eq] at h
  simp only [isJsSpace, Bool.or_eq_false_iff, Bool.and_eq_false_iff,
    beq_eq_false_iff_ne, ne_eq, decide_eq_false_iff_not]
  omega

theorem plain_ne {c p : Char} (h : isPlainAlnum c = true) (hp : isPlainAlnum p = false) :
    (c == p) = false := by
  apply beq_eq_false_iff_ne.mpr
  intro he
  subst he
  rw [h] at hp
  exact Bool.noConfusion hp

theorem ciStarts_plain {pat t : List Char} (h : ciStarts pat t = true)
    (hp : ∀ c ∈ t, isPlainAlnum c = true) : ∀ p ∈ pat, isPlainAlnum p = true := by
  induction pat generalizing t with
  | nil => simp
  | cons p ps ih =>
    cases t with
    | nil => simp [ciStarts] at h
    | cons c cs =>
      simp only [ciStarts, Bool.and_eq_true, beq_iff_eq] at h
      intro q hq
      rcases List.mem_cons.mp hq with rfl | hq'
      · rw [← h.1]
        exact plain_lowerCh (hp c (List.mem_cons_self _ _))
      · exact ih h.2 (fun x hx => hp x (List.mem_cons_of_mem _ hx)) q hq'

theorem litStarts_mem {pat t : List Char} (h : litStarts pat t = true) :
    ∀ p ∈ pat, p ∈ t := by
  induction pat generalizing t with
  | nil => simp
  | cons p ps ih =>
    cases t with
    | nil => simp [litStarts] at h
    | cons c cs =>
      simp only [litStarts, Bool.and_eq_true, beq_iff_eq] at h
      intro q hq
      rcases List.mem_cons.mp hq with rfl | hq'
      · rw [← h.1]
        exact List.mem_cons_self _ _
      · exact List.mem_cons_of_mem _ (ih h.2 q hq')

theorem ciStarts_false_of_plain (pat : List Char) (p0 : Char) {t : List Char}
    (hmem : p0 ∈ pat) (hp0 : isPlainAlnum p0 = false)
    (hp : ∀ c ∈ t, isPlainAlnum c = true) : ciStarts pat t = false := by
  cases hc : ciStarts pat t
  · rfl
  · have := ciStarts_plain hc hp p0 hmem
    rw [this] at hp0
    exact absurd hp0 (by simp)

theorem litStarts_false_of_plain (pat : List Char) (p0 : Char) {t : List Char}
    (hmem : p0 ∈ pat) (hp0 : isPlainAlnum p0 = false)
    (hp : ∀ c ∈ t, isPlainAlnum c = true) : litStarts pat t = false := by
  cases hc : litStarts pat t
  · rfl
  · have := litStarts_mem hc p0 hmem
    have := hp p0 this
    rw [this] at hp0
    exact absurd hp0 (by simp)

/-! ## Identity lemmas for the scanners -/

theorem scanDel_eq_self_of_no_match (m : List Char → Option Nat) :
    ∀ fuel s, (∀ t, t <:+ s → t ≠ [] → m t = none) → scanDel m fuel s = s := by
  intro fuel
  induction fuel with
  | zero => intro s _; cases s <;> simp [scanDel]
  | succ f ih =>
    intro s h
    cases s with
    | nil => simp [scanDel]
    | cons c cs =>
      have hm : m (c :: cs) = none := h _ (List.suffix_refl _) (by simp)
      simp only [scanDel, hm]
      rw [ih cs (fun t ht htne => h t (ht.trans (List.suffix_cons c cs)) htne)]

theorem scanRep_eq_self_of_no_match (m : List Char → Option (Nat × List Char)) :
    ∀ fuel s, (∀ t, t <:+ s → t ≠ [] → m t = none) → scanRep m fuel s = s := by
  intro fuel
  induction fuel with
  | zero => intro s _; cases s <;> simp [scanRep]
  | succ f ih =>
    intro s h
    cases s with
    | nil => simp [scanRep]
    | cons c cs =>
      have hm : m (c :: cs) = none := h _ (List.suffix_refl _) (by simp)
      simp only [scanRep, hm]
      rw [ih cs (fun t ht htne => h t (ht.trans (List.suffix_cons c cs)) htne)]

theorem scanLine_eq_self_of_no_match (m : List Char → Option (Nat × List Char)) :
    ∀ fuel b s, (∀ t, t <:+ s → t ≠ [] → m t = none) → scanLine m fuel b s = s := by
  intro fuel
  induction fuel with
  | zero => intro b s _; cases s <;> simp [scanLine]
  | succ f ih =>
    intro b s h
    cases s with
    | nil => simp [scanLine]
    | cons c cs =>
      have hm : m (c :: cs) = none := h _ (List.suffix_refl _) (by simp)
      simp only [scanLine, hm, ite_self]
      rw [ih _ cs (fun t ht htne => h t (ht.trans (List.suffix_cons c cs)) htne)]

theorem scanMatches_eq_nil_of_no_match {α : Type} (m : List Char → Option (Nat × α)) :
    ∀ fuel s, (∀ t, t <:+ s → t ≠ [] → m t = none) → scanMatches m fuel s = [] := by
  intro fuel
  induction fuel with
  | zero => intro s _; cases s <;> simp [scanMatches]
  | succ f ih =>
    intro s h
    cases s with
    | nil => simp [scanMatches]
    | cons c cs =>
      have hm : m (c :: cs) = none := h _ (List.suffix_refl _) (by simp)
      simp only [scanMatches, hm]
      exact ih cs (fun t ht htne => h t (ht.trans (List.suffix_cons c cs)) htne)

theorem jsDel_eq_self_of_no_match {m : List Char → Option Nat} {s : List Char}
    (h : ∀ t, t <:+ s → t ≠ [] → m t = none) : jsDel m s = s :=
  scanDel_eq_self_of_no_match m s.length s h

theorem jsRep_eq_self_of_no_match {m : List Char → Option (Nat × List Char)} {s : List Char}
    (h : ∀ t, t <:+ s → t ≠ [] → m t = none) : jsRep m s = s :=
  scanRep_eq_self_of_no_match m s.length s h

theorem jsLine_eq_self_of_no_match {m : List Char → Option (Nat × List Char)} {s : List Char}
    (h : ∀ t, t <:+ s → t ≠ [] → m t = none) : jsLine m s = s :=
  scanLine_eq_self_of_no_match m s.length true s h

/-- Lifts a matcher lemma over plain strings to all suffixes of a plain
string. -/
theorem suffix_plain {s t : List Char} (hp : ∀ c ∈ s, isPlainAlnum c = true)
    (ht : t <:+ s) : ∀ c ∈ t, isPlainAlnum c = true :=
  fun c hc => hp c (ht.subset hc)

/-! ## Matchers reject plain alphanumeric text -/

theorem takeWhile_nil_of_head {p : Char → Bool} {c : Char} {cs : List Char}
    (h : p c = false) : (c :: cs).takeWhile p = [] := by
  simp [List.takeWhile_cons, h]

theorem plain_head_not_lt {c : Char} (h : isPlainAlnum c = true) : c ≠ '<' := by
  intro he
  subst he
  exact absurd h (by decide)

theorem lineFullM_plain {p : List Char → Bool}
    (hp : ∀ line, (∀ c ∈ line, isPlainAlnum c = true) → p line = false) :
    ∀ t, (∀ c ∈ t, isPlainAlnum c = true) → lineFullM p t = none := by
  intro t ht
  have hline : ∀ c ∈ t.takeWhile (fun c => !isLineTerm c), isPlainAlnum c = true :=
    fun c hc => ht c ((List.takeWhile_prefix _).subset hc)
  simp [lineFullM, hp _ hline]

theorem dashDigitLine_plain {a b : Nat} (ha : 0 < a) :
    ∀ line, (∀ c ∈ line, isPlainAlnum c = true) → dashDigitLine a b line = false := by
  intro line hline
  have hd1 : line.takeWhile (· == '-') = [] := by
    cases line with
    | nil => rfl
    | cons c cs =>
      exact takeWhile_nil_of_head
        (plain_ne (p := '-') (hline c (List.mem_cons_self _ _)) (by decide))
  have ha' : decide (a ≤ (List.takeWhile (· == '-') line).length) = false := by
    rw [hd1]
    simp
    omega
  simp [dashDigitLine, ha']

theorem litLine_plain (pat : List Char) (p0 : Char) (hmem : p0 ∈ pat)
    (hp0 : isPlainAlnum p0 = false) :
    ∀ line, (∀ c ∈ line, isPlainAlnum c = true) → litStarts pat line = false :=
  fun _ hline => litStarts_false_of_plain pat p0 hmem hp0 hline

theorem nameQuoteLine_plain :
    ∀ line, (∀ c ∈ line, isPlainAlnum c = true) → nameQuoteLine line = false := by
  intro line hline
  unfold nameQuoteLine
  rw [litStarts_false_of_plain "name=\"".data '=' (by decide) (by decide) hline]
  rfl

theorem tagBlockM_plain {tag : List Char} :
    ∀ t, (∀ c ∈ t, isPlainAlnum c = true) → tagBlockM tag t = none := by
  intro t ht
  unfold tagBlockM
  rw [ciStarts_false_of_plain ('<' :: tag) '<' (List.mem_cons_self _ _) (by decide) ht]
  simp

theorem brM_plain : ∀ t, (∀ c ∈ t, isPlainAlnum c = true) → brM t = none := by
  intro t ht
  unfold brM
  rw [ciStarts_false_of_plain "<br".data '<' (by decide) (by decide) ht]
  simp

theorem ciLitM_plain {pat rep : List Char} (hmem : '<' ∈ pat) :
    ∀ t, (∀ c ∈ t, isPlainAlnum c = true) → ciLitM pat rep t = none := by
  intro t ht
  unfold ciLitM
  rw [ciStarts_false_of_plain pat '<' hmem (by decide) ht]
  simp

theorem hCloseM_plain : ∀ t, (∀ c ∈ t, isPlainAlnum c = true) → hCloseM t = none := by
  intro t ht
  unfold hCloseM
  rw [ciStarts_false_of_plain "</h".data '<' (by decide) (by decide) ht]
  simp

theorem liOpenM_plain : ∀ t, (∀ c ∈ t, isPlainAlnum c = true) → liOpenM t = none := by
  intro t ht
  unfold liOpenM
  rw [ciStarts_false_of_plain "<li".data '<' (by decide) (by decide) ht]
  simp

theorem anyTagM_plain : ∀ t, (∀ c ∈ t, isPlainAlnum c = true) → anyTagM t = none := by
  intro t ht
  cases t with
  | nil => rfl
  | cons c cs =>
    simp [anyTagM, plain_head_not_lt (ht c (List.mem_cons_self _ _))]

theorem litM_plain {pat rep : List Char} (p0 : Char) (hmem : p0 ∈ pat)
    (hp0 : isPlainAlnum p0 = false) :
    ∀ t, (∀ c ∈ t, isPlainAlnum c = true) → litM pat rep t = none := by
  intro t ht
  unfold litM
  rw [litStarts_false_of_plain pat p0 hmem hp0 ht]
  rfl

theorem nl3M_plain : ∀ t, (∀ c ∈ t, isPlainAlnum c = true) → nl3M t = none := by
  intro t ht
  cases t with
  | nil => rfl
  | cons c cs =>
    simp [nl3M, List.takeWhile_cons,
      plain_ne (p := '\n') (ht c (List.mem_cons_self _ _)) (by decide)]

theorem spTabM_plain : ∀ t, (∀ c ∈ t, isPlainAlnum c = true) → spTabM t = none := by
  intro t ht
  cases t with
  | nil => rfl
  | cons c cs =>
    have hc := ht c (List.mem_cons_self _ _)
    simp [spTabM, List.takeWhile_cons, plain_ne (p := ' ') hc (by decide),
      plain_ne (p := '\t') hc (by decide)]

theorem leadSpM_plain : ∀ t, (∀ c ∈ t, isPlainAlnum c = true) → leadSpM t = none := by
  intro t ht
  cases t with
  | nil => rfl
  | cons c cs =>
    simp [leadSpM, List.takeWhile_cons,
      plain_ne (p := ' ') (ht c (List.mem_cons_self _ _)) (by decide)]

theorem trailSpM_plain : ∀ t, (∀ c ∈ t, isPlainAlnum c = true) → trailSpM t = none := by
  intro t ht
  cases t with
  | nil => rfl
  | cons c cs =>
    simp [trailSpM, List.takeWhile_cons,
      plain_ne (p := ' ') (ht c (List.mem_cons_self _ _)) (by decide)]

theorem zeroWidthM_plain : ∀ t, (∀ c ∈ t, isPlainAlnum c = true) → zeroWidthM t = none := by
  intro t ht
  cases t with
  | nil => rfl
  | cons c cs =>
    have hc := ht c (List.mem_cons_self _ _)
    simp only [isPlainAlnum, Bool.or_eq_true, Bool.and_eq_true, decide_eq_true_eq] at hc
    simp only [zeroWidthM]
    rw [if_neg (by omega)]

theorem nonNlWsM_plain : ∀ t, (∀ c ∈ t, isPlainAlnum c = true) → nonNlWsM t = none := by
  intro t ht
  cases t with
  | nil => rfl
  | cons c cs =>
    simp [nonNlWsM, List.takeWhile_cons, plain_not_space (ht c (List.mem_cons_self _ _))]

theorem dropLeadNl_plain {s : List Char} (hp : ∀ c ∈ s, isPlainAlnum c = true) :
    dropLeadNl s = s := by
  unfold dropLeadNl
  cases s with
  | nil => rfl
  | cons c cs =>
    rw [List.dropWhile_cons_of_neg]
    rw [plain_ne (hp c (List.mem_cons_self _ _)) (by decide)]
    exact Bool.noConfusion

theorem dropWhile_eq_self_of_plain {p : Char → Bool} {s : List Char}
    (hp : ∀ c ∈ s, isPlainAlnum c = true)
    (hnp : ∀ c, isPlainAlnum c = true → p c = false) : s.dropWhile p = s := by
  cases s with
  | nil => rfl
  | cons c cs =>
    rw [List.dropWhile_cons_of_neg]
    rw [hnp c (hp c (List.mem_cons_self _ _))]
    exact Bool.noConfusion

theorem dropTrailNl_plain {s : List Char} (hp : ∀ c ∈ s, isPlainAlnum c = true) :
    dropTrailNl s = s := by
  unfold dropTrailNl
  rw [dropWhile_eq_self_of_plain (fun c hc => hp c (List.mem_reverse.mp hc))
    (fun c hc => plain_ne hc (by decide))]
  exact List.reverse_reverse s

theorem trimL_plain {s : List Char} (hp : ∀ c ∈ s, isPlainAlnum c = true) :
    trimL s = s := by
  unfold trimL
  rw [dropWhile_eq_self_of_plain hp (fun c hc => plain_not_space hc)]
  rw [dropWhile_eq_self_of_plain (fun c hc => hp c (List.mem_reverse.mp hc))
    (fun c hc => plain_not_space hc)]
  exact List.reverse_reverse s

/-- Plain alphanumeric strings are fixed points of the full cleaning
pipeline: no pattern of any pass can match them. -/
theorem cleanL_plain {s : List Char} (hp : ∀ c ∈ s, isPlainAlnum c = true) :
    cleanL s = s := by
  have h1 : jsLine (lineFullM (dashDigitLine 10 10)) s = s :=
    jsLine_eq_self_of_no_match (fun t ht _ =>
      lineFullM_plain (dashDigitLine_plain (by omega)) t (suffix_plain hp ht))
  have h2 : jsLine (lineFullM (litStarts "Content-".data)) s = s :=
    jsLine_eq_self_of_no_match (fun t ht _ =>
      lineFullM_plain (litLine_plain "Content-".data '-' (by decide) (by decide)) t
        (suffix_plain hp ht))
  have h3 : jsLine (lineFullM (litStarts "boundary=".data)) s = s :=
    jsLine_eq_self_of_no_match (fun t ht _ =>
      lineFullM_plain (litLine_plain "boundary=".data '=' (by decide) (by decide)) t
        (suffix_plain hp ht))
  have hT1 : jsDel (tagBlockM "script".data) s = s :=
    jsDel_eq_self_of_no_match (fun t ht _ => tagBlockM_plain t (suffix_plain hp ht))
  have hT2 : jsDel (tagBlockM "style".data) s = s :=
    jsDel_eq_self_of_no_match (fun t ht _ => tagBlockM_plain t (suffix_plain hp ht))
  have hT3 : jsDel (tagBlockM "iframe".data) s = s :=
    jsDel_eq_self_of_no_match (fun t ht _ => tagBlockM_plain t (suffix_plain hp ht))
  have hT4 : jsDel (tagBlockM "noscript".data) s = s :=
    jsDel_eq_self_of_no_match (fun t ht _ => tagBlockM_plain t (suffix_plain hp ht))
  have hBr : jsRep brM s = s :=
    jsRep_eq_self_of_no_match (fun t ht _ => brM_plain t (suffix_plain hp ht))
  have hP : jsRep (ciLitM "</p>".data ['\n', '\n']) s = s :=
    jsRep_eq_self_of_no_match (fun t ht _ => ciLitM_plain (by decide) t (suffix_plain hp ht))
  have hDiv : jsRep (ciLitM "</div>".data ['\n']) s = s :=
    jsRep_eq_self_of_no_match (fun t ht _ => ciLitM_plain (by decide) t (suffix_plain hp ht))
  have hH : jsRep hCloseM s = s :=
    jsRep_eq_self_of_no_match (fun t ht _ => hCloseM_plain t (suffix_plain hp ht))
  have hLi : jsRep liOpenM s = s :=
    jsRep_eq_self_of_no_match (fun t ht _ => liOpenM_plain t (suffix_plain hp ht))
  have hLiC : jsRep (ciLitM "</li>".data ['\n']) s = s :=
    jsRep_eq_self_of_no_match (fun t ht _ => ciLitM_plain (by decide) t (suffix_plain hp ht))
  have hAny : jsRep anyTagM s = s :=
    jsRep_eq_self_of_no_match (fun t ht _ => anyTagM_plain t (suffix_plain hp ht))
  have hE1 : jsRep (litM "&nbsp;".data [' ']) s = s :=
    jsRep_eq_self_of_no_match (fun t ht _ =>
      litM_plain '&' (by decide) (by decide) t (suffix_plain hp ht))
  have hE2 : jsRep (litM "&lt;".data ['<']) s = s :=
    jsRep_eq_self_of_no_match (fun t ht _ =>
      litM_plain '&' (by decide) (by decide) t (suffix_plain hp ht))
  have hE3 : jsRep (litM "&gt;".data ['>']) s = s :=
    jsRep_eq_self_of_no_match (fun t ht _ =>
      litM_plain '&' (by decide) (by decide) t (suffix_plain hp ht))
  have hE4 : jsRep (litM "&amp;".data ['&']) s = s :=
    jsRep_eq_self_of_no_match (fun t ht _ =>
      litM_plain '&' (by decide) (by decide) t (suffix_plain hp ht))
  have hE5 : jsRep (litM "&quot;".data ['"']) s = s :=
    jsRep_eq_self_of_no_match (fun t ht _ =>
      litM_plain '&' (by decide) (by decide) t (suffix_plain hp ht))
  have hE6 : jsRep (litM "&#x27;".data ['\'']) s = s :=
    jsRep_eq_self_of_no_match (fun t ht _ =>
      litM_plain '&' (by decide) (by decide) t (suffix_plain hp ht))
  have hE7 : jsRep (litM "&#x2F;".data ['/']) s = s :=
    jsRep_eq_self_of_no_match (fun t ht _ =>
      litM_plain '&' (by decide) (by decide) t (suffix_plain hp ht))
  have hE8 : jsRep (litM "&#39;".data ['\'']) s = s :=
    jsRep_eq_self_of_no_match (fun t ht _ =>
      litM_plain '&' (by decide) (by decide) t (suffix_plain hp ht))
  have hE9 : jsRep (litM "&hellip;".data ['.', '.', '.']) s = s :=
    jsRep_eq_self_of_no_match (fun t ht _ =>
      litM_plain '&' (by decide) (by decide) t (suffix_plain hp ht))
  have hE10 : jsRep (litM "&mdash;".data ['—']) s = s :=
    jsRep_eq_self_of_no_match (fun t ht _ =>
      litM_plain '&' (by decide) (by decide) t (suffix_plain hp ht))
  have hE11 : jsRep (litM "&ndash;".data ['–']) s = s :=
    jsRep_eq_self_of_no_match (fun t ht _ =>
      litM_plain '&' (by decide) (by decide) t (suffix_plain hp ht))
  have hCr1 : jsRep (litM "\r\n".data ['\n']) s = s :=
    jsRep_eq_self_of_no_match (fun t ht _ =>
      litM_plain '\r' (by decide) (by decide) t (suffix_plain hp ht))
  have hCr2 : jsRep (litM "\r".data ['\n']) s = s :=
    jsRep_eq_self_of_no_match (fun t ht _ =>
      litM_plain '\r' (by decide) (by decide) t (suffix_plain hp ht))
  have hNl3 : jsRep nl3M s = s :=
    jsRep_eq_self_of_no_match (fun t ht _ => nl3M_plain t (suffix_plain hp ht))
  have hSpTab : jsRep spTabM s = s :=
    jsRep_eq_self_of_no_match (fun t ht _ => spTabM_plain t (suffix_plain hp ht))
  have hLead : jsLine leadSpM s = s :=
    jsLine_eq_self_of_no_match (fun t ht _ => leadSpM_plain t (suffix_plain hp ht))
  have hTrail : jsRep trailSpM s = s :=
    jsRep_eq_self_of_no_match (fun t ht _ => trailSpM_plain t (suffix_plain hp ht))
  have hDl : dropLeadNl s = s := dropLeadNl_plain hp
  have hDt : dropTrailNl s = s := dropTrailNl_plain hp
  have hZw : jsDel zeroWidthM s = s :=
    jsDel_eq_self_of_no_match (fun t ht _ => zeroWidthM_plain t (suffix_plain hp ht))
  have hNw : jsRep nonNlWsM s = s :=
    jsRep_eq_self_of_no_match (fun t ht _ => nonNlWsM_plain t (suffix_plain hp ht))
  have hTm : trimL s = s := trimL_plain hp
  simp only [cleanL]
  rw [h1, h2, h3, hT1, hT2, hT3, hT4, hBr, hP, hDiv, hH, hLi, hLiC, hAny, hE1, hE2,
    hE3, hE4, hE5, hE6, hE7, hE8, hE9, hE10, hE11, hCr1, hCr2, hNl3, hSpTab, hLead,
    hTrail, hDl, hDt, hZw, hNw, hTm]

/-! ## Claim C3 -/

/-- Claim C3 (counterexample): the markup-stripping cleaner is not
idempotent.  Entity decoding can manufacture a new entity: one application
turns `&amp;lt;` into `&lt;` (the `&amp;` pass rewrites the leading `&amp;`
to `&`, re-assembling `&lt;`), and a second application decodes that to `<`. -/
theorem c3_counterexample :
    cleanHtmlContent "&amp;lt;" = "&lt;" ∧
    cleanHtmlContent (cleanHtmlContent "&amp;lt;") = "<" ∧
    cleanHtmlContent (cleanHtmlContent "&amp;lt;") ≠ cleanHtmlContent "&amp;lt;" := by
  refine ⟨by decide, by decide, by decide⟩

/-- Claim C3 (amended): `clean(clean(x)) == clean(x)` fails in general
(counterexample `x = "&amp;lt;"`), because entity decoding and tag stripping
can create new entities or tags and whitespace passes can create new blank
runs.  The cleaner is idempotent on markup-free plain text: every string of
ASCII letters and digits is a fixed point of `clean`, hence idempotent
there. -/
theorem c3_amended (s : String) (h : ∀ c ∈ s.data, isPlainAlnum c = true) :
    cleanHtmlContent s = s ∧
    cleanHtmlContent (cleanHtmlContent s) = cleanHtmlContent s := by
  have hs : cleanHtmlContent s = s := by
    unfold cleanHtmlContent
    split
    case isTrue he => exact he.symm
    case isFalse he => rw [cleanL_plain h]
  exact ⟨hs, by rw [hs, hs]⟩

/-- Claim C3 (witness): the plain string `abc123` is a fixed point of the
cleaner, hence an idempotence instance. -/
theorem c3_amended_witness :
    cleanHtmlContent "abc123" = "abc123" ∧
    cleanHtmlContent (cleanHtmlContent "abc123") = cleanHtmlContent "abc123" :=
  c3_amended "abc123" (by decide)

/-! ## Claim C2 -/

/-- Claim C2 (counterexample): the claim says the sanitizer's output never
contains a `<script>` block, for every input.  But each removal is a single
left-to-right pass, so deleting an inner block can splice the surrounding
text into a new one: `<scr<script>x</script>ipt>alert(1)</script>` sanitizes
to `<script>alert(1)</script>`, whose head is a full `<script>...</script>`
block match. -/
theorem c2_counterexample :
    sanitizeHtmlContent "<scr<script>x</script>ipt>alert(1)</script>" =
      "<script>alert(1)</script>" ∧
    (tagBlockM "script".data
      (sanitizeHtmlContent "<scr<script>x</script>ipt>alert(1)</script>").data).isSome = true := by
  constructor
  · decide
  · decide

/-- Claim C2 (amended): every string the sanitizer leaves unchanged — in
particular any already-sanitized input that the single pass fixes — contains
no `<script>`/`<style>`/`<iframe>`/`<noscript>` block, no inline
event-handler attribute match, and no `javascript:` URI; on such strings all
tags are trivially left intact.  A single pass on arbitrary input removes all
matches found in its left-to-right scan but may splice together a new
dangerous construct, so the unconditional claim fails (see the
counterexample). -/
theorem c2_amended (s : List Char) (h : sanitizeL s = s) :
    NoPat (tagBlockM "script".data) s ∧ NoPat (tagBlockM "style".data) s ∧
    NoPat (tagBlockM "iframe".data) s ∧ NoPat (tagBlockM "noscript".data) s ∧
    NoPat (onAttrM '"') s ∧ NoPat (onAttrM '\'') s ∧ NoPat jsUriM s := by
  simp only [sanitizeL] at h
  set p1 := tagBlockM "script".data with hp1
  set p2 := tagBlockM "style".data with hp2
  set p3 := tagBlockM "iframe".data with hp3
  set p4 := tagBlockM "noscript".data with hp4
  set p5 := onAttrM '"' with hp5
  set p6 := onAttrM '\'' with hp6
  have l1 := jsDel_length_le p1 s
  have l2 := jsDel_length_le p2 (jsDel p1 s)
  have l3 := jsDel_length_le p3 (jsDel p2 (jsDel p1 s))
  have l4 := jsDel_length_le p4 (jsDel p3 (jsDel p2 (jsDel p1 s)))
  have l5 := jsDel_length_le p5 (jsDel p4 (jsDel p3 (jsDel p2 (jsDel p1 s))))
  have l6 := jsDel_length_le p6 (jsDel p5 (jsDel p4 (jsDel p3 (jsDel p2 (jsDel p1 s)))))
  have l7 := jsDel_length_le jsUriM
    (jsDel p6 (jsDel p5 (jsDel p4 (jsDel p3 (jsDel p2 (jsDel p1 s))))))
  have hlen := congrArg List.length h
  have e1 : jsDel p1 s = s := jsDel_eq_self_of_length _ _ (by omega)
  rw [e1] at hlen h l2 l3 l4 l5 l6 l7
  have e2 : jsDel p2 s = s := jsDel_eq_self_of_length _ _ (by omega)
  rw [e2] at hlen h l3 l4 l5 l6 l7
  have e3 : jsDel p3 s = s := jsDel_eq_self_of_length _ _ (by omega)
  rw [e3] at hlen h l4 l5 l6 l7
  have e4 : jsDel p4 s = s := jsDel_eq_self_of_length _ _ (by omega)
  rw [e4] at hlen h l5 l6 l7
  have e5 : jsDel p5 s = s := jsDel_eq_self_of_length _ _ (by omega)
  rw [e5] at hlen h l6 l7
  have e6 : jsDel p6 s = s := jsDel_eq_self_of_length _ _ (by omega)
  rw [e6] at hlen h l7
  exact ⟨jsDel_no_match _ _ e1, jsDel_no_match _ _ e2, jsDel_no_match _ _ e3,
    jsDel_no_match _ _ e4, jsDel_no_match _ _ e5, jsDel_no_match _ _ e6,
    jsDel_no_match _ _ h⟩

/-! ## Claim C1 -/

theorem itemSpec_of_valid {item : Json} (h : validConversationItem item = true) :
    itemMessageSpec item (Message.mk (jsonItemRole item) (jsonItemContent item)) := by
  unfold validConversationItem at h
  rw [Bool.and_eq_true] at h
  obtain ⟨-, h2⟩ := h
  cases hf : jstr (jprop item "from") with
  | none =>
    rw [hf] at h2
    exact absurd h2 (by simp)
  | some f =>
    cases hv : jstr (jprop item "value") with
    | none =>
      rw [hf, hv] at h2
      exact absurd h2 (by simp)
    | some v =>
      refine ⟨f, v, hf, hv, ?_, ?_⟩
      · show jsonItemRole item = _
        unfold jsonItemRole
        rw [hf]
        simp only [Option.some.injEq]
      · show jsonItemContent item = _
        unfold jsonItemContent
        rw [hv]

/-- Claim C1: on every input whose `JSON.parse` outcome is a valid
conversation array, `parseHtmlContent` takes the JSON tier: the format is
`json`, `messageCount` equals the array length, and the messages are in array
order with the role mapped per the synonym table (`human`/`user` → `user`,
else `assistant`) and the content equal to the markup-preserving sanitizer
applied to the element's `value`. -/
theorem c1_json_tier (items : List Json) (hr : HRResult) (html : String)
    (hv : isValidConversationJSON (some (Json.arr items)) = true) :
    (parseHtmlContent (some (Json.arr items)) hr html).format = "json" ∧
    (parseHtmlContent (some (Json.arr items)) hr html).messageCount = some items.length ∧
    (parseHtmlContent (some (Json.arr items)) hr html).messages.length = items.length ∧
    List.Forall₂ itemMessageSpec items
      (parseHtmlContent (some (Json.arr items)) hr html).messages := by
  have hparse : parseHtmlContent (some (Json.arr items)) hr html =
      parseJSONConversation (some (Json.arr items)) html := by
    unfold parseHtmlContent
    rw [if_pos hv]
  have hall : ∀ item ∈ items, validConversationItem item = true := by
    have hv' := hv
    unfold isValidConversationJSON at hv'
    rw [Bool.and_eq_true] at hv'
    exact fun item hi => List.all_eq_true.mp hv'.2 item hi
  rw [hparse]
  unfold parseJSONConversation
  refine ⟨rfl, by simp, by simp, ?_⟩
  show List.Forall₂ itemMessageSpec items (items.map _)
  rw [List.forall₂_map_right_iff]
  rw [List.forall₂_same]
  exact fun item hi => itemSpec_of_valid (hall item hi)

/-- Claim C1 (witness): the spec scenario
`[{"from":"human","value":"hi"},{"from":"gpt","value":"<b>hello</b>"}]`. -/
theorem c1_json_tier_witness :
    (parseHtmlContent (some (Json.arr
        [Json.obj [("from", Json.str "human"), ("value", Json.str "hi")],
         Json.obj [("from", Json.str "gpt"), ("value", Json.str "<b>hello</b>")]]))
      ⟨none, none⟩ "x").format = "json" ∧
    (parseHtmlContent (some (Json.arr
        [Json.obj [("from", Json.str "human"), ("value", Json.str "hi")],
         Json.obj [("from", Json.str "gpt"), ("value", Json.str "<b>hello</b>")]]))
      ⟨none, none⟩ "x").messageCount = some 2 ∧
    (parseHtmlContent (some (Json.arr
        [Json.obj [("from", Json.str "human"), ("value", Json.str "hi")],
         Json.obj [("from", Json.str "gpt"), ("value", Json.str "<b>hello</b>")]]))
      ⟨none, none⟩ "x").messages.length = 2 ∧
    List.Forall₂ itemMessageSpec
      [Json.obj [("from", Json.str "human"), ("value", Json.str "hi")],
       Json.obj [("from", Json.str "gpt"), ("value", Json.str "<b>hello</b>")]]
      (parseHtmlContent (some (Json.arr
        [Json.obj [("from", Json.str "human"), ("value", Json.str "hi")],
         Json.obj [("from", Json.str "gpt"), ("value", Json.str "<b>hello</b>")]]))
      ⟨none, none⟩ "x").messages :=
  c1_json_tier _ _ _ (by decide)

/-! ## Claim C4 -/

theorem valid_implies_arr {jp : Option Json} (hv : isValidConversationJSON jp = true) :
    ∃ items, jp = some (Json.arr items) := by
  cases jp with
  | none => exact absurd hv (by simp [isValidConversationJSON])
  | some j =>
    cases j with
    | arr items => exact ⟨items, rfl⟩
    | null => exact absurd hv (by simp [isValidConversationJSON])
    | bool b => exact absurd hv (by simp [isValidConversationJSON])
    | num n => exact absurd hv (by simp [isValidConversationJSON])
    | str s => exact absurd hv (by simp [isValidConversationJSON])
    | obj fs => exact absurd hv (by simp [isValidConversationJSON])

/-- Claim C4: on every path of the cascade that `parseHtmlContent` can
actually take, the produced result satisfies `messageCount = length
(messages)`.  (The `catch` object of `parseJSONConversation`, which lacks a
`messageCount` field, is unreachable from `parseHtmlContent`: the JSON tier
is entered only after `isValidConversationJSON` has succeeded on the same
parse outcome.) -/
theorem c4_invariant (jp : Option Json) (hr : HRResult) (html : String) :
    (parseHtmlContent jp hr html).messageCount =
      some (parseHtmlContent jp hr html).messages.length := by
  unfold parseHtmlContent
  split
  case isTrue hv =>
    obtain ⟨items, rfl⟩ := valid_implies_arr hv
    simp [parseJSONConversation]
  case isFalse hv =>
    split <;> (simp; try (split <;> simp))

/-! ## Claim C5 -/

/-- Claim C5 (counterexample): on `"hello"` no tier yields a message, and the
result is indeed the single `unknown` message wrapping the cleaned raw text —
but its `format` is `"parsed"`, not `"fallback"` as the claim states (the
no-match fallback return of `parseHtmlContent` hard-codes `format:
'parsed'`; `'fallback'` only appears in the unreachable `catch` branches). -/
theorem c5_counterexample :
    isValidConversationJSON none = false ∧
    patternAMatches "hello".data = [] ∧
    patternBMatches "hello".data = [] ∧
    patternCMatches "hello".data = [] ∧
    (parseHtmlContent none ⟨none, none⟩ "hello").messages =
      [Message.mk "unknown" "hello"] ∧
    (parseHtmlContent none ⟨none, none⟩ "hello").format = "parsed" ∧
    (parseHtmlContent none ⟨none, none⟩ "hello").format ≠ "fallback" := by
  refine ⟨by decide, by decide, by decide, by decide, by decide, by decide, by decide⟩

/-- Claim C5 (amended): when no cascade tier yields any message (the parse
outcome is not a valid conversation array, the structured extractor produced
no text, and none of the three regex patterns matches), `parseHtmlContent`
returns exactly one message of role `unknown` whose content is the
fully-cleaned raw text — with `format = "parsed"` (not `"fallback"`, which
the source reserves for its unreachable `catch` branches). -/
theorem c5_amended (jp : Option Json) (hr : HRResult) (html : String)
    (h1 : isValidConversationJSON jp = false)
    (h2 : hr.userTexts = none) (h3 : hr.assistantTexts = none)
    (h4 : patternAMatches html.data = [])
    (h5 : patternBMatches html.data = [])
    (h6 : patternCMatches html.data = []) :
    parseHtmlContent jp hr html =
      { messages := [Message.mk "unknown" (cleanHtmlContent html)], format := "parsed",
        messageCount := some 1, hadError := false } := by
  have hhr : hrMessages hr = [] := by
    unfold hrMessages
    rw [h2, h3]
    rfl
  have hreg : regexTierMessages html.data = [] := by
    unfold regexTierMessages
    rw [h4, h5, h6]
    simp
  unfold parseHtmlContent
  rw [h1]
  simp only [Bool.false_eq_true, if_false, hhr, ite_self, hreg]
  simp

/-- Claim C5 (witness): the amended claim at the concrete input `"hello"`. -/
theorem c5_amended_witness :
    parseHtmlContent none ⟨none, none⟩ "hello" =
      { messages := [Message.mk "unknown" (cleanHtmlContent "hello")], format := "parsed",
        messageCount := some 1, hadError := false } :=
  c5_amended none ⟨none, none⟩ "hello" (by decide) rfl rfl (by decide) (by decide) (by decide)

/-! ## Claim C6 -/

theorem divRoleM_head {c : Char} {cs : List Char} (h : c ≠ '<') :
    divRoleM (c :: cs) = none := by
  unfold divRoleM
  have hci : ciStarts "<div".data (c :: cs) = false := by
    show ((lowerCh c == '<') && ciStarts "div".data cs) = false
    rw [lowerCh_beq_lt_eq_false h]
    rfl
  rw [hci]
  rfl

theorem divClassM_head {c : Char} {cs : List Char} (h : c ≠ '<') :
    divClassM (c :: cs) = none := by
  unfold divClassM
  have hci : ciStarts "<div".data (c :: cs) = false := by
    show ((lowerCh c == '<') && ciStarts "div".data cs) = false
    rw [lowerCh_beq_lt_eq_false h]
    rfl
  rw [hci]
  rfl

theorem patternA_nil {s : List Char} (h : '<' ∉ s) : patternAMatches s = [] :=
  scanMatches_eq_nil_of_no_match _ _ _ (fun t ht htne => by
    cases t with
    | nil => exact absurd rfl htne
    | cons c cs =>
      exact divRoleM_head (fun he => h (he ▸ ht.subset (List.mem_cons_self _ _))))

theorem patternB_nil {s : List Char} (h : '<' ∉ s) : patternBMatches s = [] :=
  scanMatches_eq_nil_of_no_match _ _ _ (fun t ht htne => by
    cases t with
    | nil => exact absurd rfl htne
    | cons c cs =>
      exact divClassM_head (fun he => h (he ▸ ht.subset (List.mem_cons_self _ _))))

theorem roleLineM_label (lab : List Char) (L : Nat) (text : List Char)
    (hL : lab.length = L)
    (hlab : labelColonLen (lab ++ ':' :: ' ' :: text) = some L)
    (hsp : ∀ c, text.head? = some c → isJsSpace c = false)
    (hnt : ∀ c ∈ text, isLineTerm c = false) :
    roleLineM (lab ++ ':' :: ' ' :: text) =
      some (L + 1 + 1 + text.length, (lab ++ ':' :: ' ' :: text, lab, some text)) := by
  have hdrop : (lab ++ ':' :: ' ' :: text).drop (L + 1) = ' ' :: text := by
    rw [List.append_cons]
    refine List.drop_left' ?_
    simp [hL]
  have hws : (' ' :: text).takeWhile isJsSpace = [' '] := by
    rw [List.takeWhile_cons]
    have hsp' : isJsSpace ' ' = true := by decide
    rw [hsp']
    cases text with
    | nil => rfl
    | cons c cs =>
      simp only [List.takeWhile_cons, hsp c rfl]
      rfl
  have hbody : text.takeWhile (fun c => !isLineTerm c) = text := by
    rw [List.takeWhile_eq_self_iff]
    intro c hc
    simp [hnt c hc]
  have htake : (lab ++ ':' :: ' ' :: text).take L = lab := List.take_left' hL
  have htaken : (lab ++ ':' :: ' ' :: text).take (L + 1 + 1 + text.length) =
      lab ++ ':' :: ' ' :: text := by
    apply List.take_of_length_le
    simp
    omega
  unfold roleLineM
  rw [hlab]
  simp only [hdrop, hws, List.length_cons, List.length_nil, List.drop_succ_cons,
    List.drop_zero, List.getLast?_singleton, Option.any_some, htake, htaken, hbody]
  have hterm : isLineTerm ' ' = false := by decide
  rw [hterm]
  simp
  omega

theorem patternC_single (lab : List Char) (L : Nat) (text : List Char)
    (hL : lab.length = L)
    (hlab : labelColonLen (lab ++ ':' :: ' ' :: text) = some L)
    (hsp : ∀ c, text.head? = some c → isJsSpace c = false)
    (hnt : ∀ c ∈ text, isLineTerm c = false) :
    patternCMatches (lab ++ ':' :: ' ' :: text) =
      [(lab ++ ':' :: ' ' :: text, lab, some text)] := by
  have hrl := roleLineM_label lab L text hL hlab hsp hnt
  unfold patternCMatches
  cases hs : lab ++ ':' :: ' ' :: text with
  | nil => exact absurd hs (by simp)
  | cons c cs =>
    have hlen : (lab ++ ':' :: ' ' :: text).length = L + 1 + 1 + text.length := by
      simp
      omega
    have hcs : cs.length = L + 1 + text.length := by
      rw [hs] at hlen
      simp at hlen
      omega
    rw [hs] at hrl
    simp only [hs, List.length_cons, scanMatchesLS, if_pos, hrl]
    have hdrop0 : cs.drop (L + 1 + 1 + text.length - 1) = [] := by
      apply List.drop_of_length_le
      omega
    rw [hdrop0]
    cases hcl : cs.length with
    | zero => rfl
    | succ k => rfl

theorem regexTier_label (labC : List Char) (L : Nat) (text : List Char)
    (hL : labC.length = L)
    (hlab : labelColonLen (labC ++ ':' :: ' ' :: text) = some L)
    (hlabne : labC ≠ [])
    (hnoLt : '<' ∉ labC ++ ':' :: ' ' :: text)
    (htext : text ≠ [])
    (hnt : ∀ c ∈ text, isLineTerm c = false)
    (hsp : ∀ c, text.head? = some c → isJsSpace c = false) :
    regexTierMessages (labC ++ ':' :: ' ' :: text) =
      [Message.mk (String.mk (lowerL labC)) (cleanHtmlContent (String.mk text))] := by
  have hA := patternA_nil hnoLt
  have hB := patternB_nil hnoLt
  have hC := patternC_single labC L text hL hlab hsp hnt
  have hlabE : labC.isEmpty = false := by
    cases labC with
    | nil => exact absurd rfl hlabne
    | cons c cs => rfl
  have htextE : text.isEmpty = false := by
    cases text with
    | nil => exact absurd rfl htext
    | cons c cs => rfl
  unfold regexTierMessages
  rw [hA, hB, hC]
  simp only [List.isEmpty_nil, Bool.not_true, Bool.false_eq_true, if_false,
    List.filterMap_cons, buildRegexMessage, hlabE, htextE, List.filterMap_nil]

theorem c6core (jp : Option Json) (labC : List Char) (L : Nat) (labL : String)
    (text : String) (html : String)
    (hjp : isValidConversationJSON jp = false)
    (hL : labC.length = L)
    (hlab : labelColonLen (labC ++ ':' :: ' ' :: text.data) = some L)
    (hlabne : labC ≠ [])
    (hnoLtLab : '<' ∉ labC)
    (hlow : String.mk (lowerL labC) = labL)
    (htext : text.data ≠ [])
    (hnt : ∀ c ∈ text.data, isLineTerm c = false)
    (hnoLt : '<' ∉ text.data)
    (hsp : ∀ c, text.data.head? = some c → isJsSpace c = false)
    (hdata : html.data = labC ++ ':' :: ' ' :: text.data) :
    parseHtmlContent jp ⟨none, none⟩ html =
      { messages := [Message.mk labL (cleanHtmlContent text)], format := "parsed",
        messageCount := some 1, hadError := false } := by
  have hnoLt' : '<' ∉ labC ++ ':' :: ' ' :: text.data := by
    intro hmem
    rcases List.mem_append.mp hmem with h | h
    · exact hnoLtLab h
    · rcases List.mem_cons.mp h with h' | h'
      · exact absurd h'.symm (by decide)
      · rcases List.mem_cons.mp h' with h'' | h''
        · exact absurd h''.symm (by decide)
        · exact hnoLt h''
  have hreg : regexTierMessages html.data =
      [Message.mk labL (cleanHtmlContent text)] := by
    rw [hdata, regexTier_label labC L text.data hL hlab hlabne hnoLt' htext hnt hsp, hlow]
  have hhr : hrMessages ⟨none, none⟩ = [] := rfl
  unfold parseHtmlContent
  rw [hjp]
  simp only [Bool.false_eq_true, if_false, hhr, ite_self, List.isEmpty_nil,
    Bool.not_true, hreg]
  rfl

/-- Claim C6 (counterexample): the claim says the role of a pattern-(c)
match is resolved by the case-insensitive substring check, so that
`Human: hi` yields role `user` and `AI: hello` yields role `assistant`.
In the source that check only runs when the captured text (`match[2]`) is
falsy; with non-empty text the role is `match[1].toLowerCase()` — the label
itself — so `Human: hi` yields role `human` and `AI: hello` yields `ai`. -/
theorem c6_counterexample :
    (parseHtmlContent none ⟨none, none⟩ "Human: hi").messages.map Message.role =
      ["human"] ∧
    ["human"] ≠ ["user"] ∧
    (parseHtmlContent none ⟨none, none⟩ "AI: hello").messages.map Message.role =
      ["ai"] ∧
    ["ai"] ≠ ["assistant"] := by
  refine ⟨by decide, by decide, by decide, by decide⟩

/-- Claim C6 (amended): for a pattern-(c) match whose captured text is
non-empty, the message role is the lowercased label verbatim — `user`,
`human`, `assistant` or `ai` — not the substring-mapped canonical role (the
substring check only applies when the captured text is empty).  For any
single-line input `Label: text` (text non-empty, free of line terminators,
`<`, and not starting with whitespace) that no earlier tier claims, the
cascade yields exactly `[{role: label.toLowerCase(), content: clean(text)}]`
with format `parsed`. -/
theorem c6_amended (jp : Option Json) (labU labL text : String)
    (hjp : isValidConversationJSON jp = false)
    (hlab : (labU, labL) ∈ [("User", "user"), ("Human", "human"),
      ("Assistant", "assistant"), ("AI", "ai")])
    (htext : text.data ≠ [])
    (hnt : ∀ c ∈ text.data, isLineTerm c = false)
    (hnoLt : '<' ∉ text.data)
    (hsp : ∀ c, text.data.head? = some c → isJsSpace c = false) :
    parseHtmlContent jp ⟨none, none⟩ (labU ++ ": " ++ text) =
      { messages := [Message.mk labL (cleanHtmlContent text)], format := "parsed",
        messageCount := some 1, hadError := false } := by
  simp only [List.mem_cons, List.mem_singleton, Prod.mk.injEq, List.not_mem_nil,
    or_false] at hlab
  rcases hlab with ⟨h1, h2⟩ | ⟨h1, h2⟩ | ⟨h1, h2⟩ | ⟨h1, h2⟩ <;> subst h1 <;> subst h2
  · exact c6core jp "User".data 4 "user" text _ hjp rfl rfl (by decide) (by decide)
      rfl htext hnt hnoLt hsp (by simp [List.append_assoc])
  · exact c6core jp "Human".data 5 "human" text _ hjp rfl rfl (by decide) (by decide)
      rfl htext hnt hnoLt hsp (by simp [List.append_assoc])
  · exact c6core jp "Assistant".data 9 "assistant" text _ hjp rfl rfl (by decide)
      (by decide) rfl htext hnt hnoLt hsp (by simp [List.append_assoc])
  · exact c6core jp "AI".data 2 "ai" text _ hjp rfl rfl (by decide) (by decide)
      rfl htext hnt hnoLt hsp (by simp [List.append_assoc])

/-- Claim C6 (witness): the amended claim at `AI: hello` — the role is
`ai`. -/
theorem c6_amended_witness :
    parseHtmlContent none ⟨none, none⟩ ("AI" ++ ": " ++ "hello") =
      { messages := [Message.mk "ai" (cleanHtmlContent "hello")], format := "parsed",
        messageCount := some 1, hadError := false } :=
  c6_amended none "AI" "ai" "hello" (by decide) (by decide) (by decide)
    (by decide) (by decide) (by decide)

/-! ## Claim C7 -/

/-- Claim C7 (counterexample): the claim says a 56-symbol alphabet excluding
`0/O/1/l/I`.  The source alphabet
`abcdefghijkmnpqrstuvwxyzABCDEFGHJKMNPQRSTUVWXYZ23456789` has 55 symbols: it
also omits `o` and `L`. -/
theorem c7_counterexample :
    idChars.length = 55 ∧ idChars.length ≠ 56 ∧ 'o' ∉ idChars ∧ 'L' ∉ idChars := by
  refine ⟨by decide, by decide, by decide, by decide⟩

/-- Claim C7 (amended): identifiers are 8 characters drawn from the 55-symbol
alphabet (alphanumerics without `0`, `1`, `I`, `L`, `O`, `l`, `o`), and when
every candidate collides the allocator fails with the allocation-exhausted
error after exactly 10 existence checks. -/
theorem c7_amended :
    (∀ (r : Nat → Fin idChars.length) (k : Nat), (candidateId r k).length = 8 ∧
      ∀ c ∈ (candidateId r k).data, c ∈ idChars) ∧
    (∀ (store : String → Bool) (r : Nat → Fin idChars.length),
      (∀ k, k < 10 → store (candidateId r k) = true) →
      generateUniqueId store r = (Except.error "Failed to generate unique ID", 10)) := by
  constructor
  · intro r k
    constructor
    · show ((List.range 8).map (fun i => idChars.get (r (8 * k + i)))).length = 8
      simp
    · intro c hc
      have hc' : c ∈ (List.range 8).map (fun i => idChars.get (r (8 * k + i))) := hc
      obtain ⟨i, _, rfl⟩ := List.mem_map.mp hc'
      rcases hri : r (8 * k + i) with ⟨n, hn⟩
      exact List.get_mem _ _ _
  · intro store r hcoll
    have aux : ∀ rem a, (∀ j, j < rem → store (candidateId r (a + j)) = true) →
        generateUniqueIdAux store r a rem =
          (Except.error "Failed to generate unique ID", rem) := by
      intro rem
      induction rem with
      | zero => intro a _; rfl
      | succ n ih =>
        intro a h
        have h0 : store (candidateId r a) = true := by
          have := h 0 (Nat.succ_pos n)
          simpa using this
        have hrest : ∀ j, j < n → store (candidateId r (a + 1 + j)) = true := by
          intro j hj
          have := h (j + 1) (by omega)
          have he : a + (j + 1) = a + 1 + j := by omega
          rwa [he] at this
        simp only [generateUniqueIdAux, h0, if_true, ih (a + 1) hrest]
    exact aux 10 0 (fun j hj => by simpa using hcoll j hj)

/-- Claim C7 (witness): the amended claim at a degenerate random stream and a
store in which every key exists. -/
theorem c7_amended_witness :
    ((candidateId randZero 0).length = 8 ∧
      ∀ c ∈ (candidateId randZero 0).data, c ∈ idChars) ∧
    generateUniqueId storeAll randZero =
      (Except.error "Failed to generate unique ID", 10) :=
  ⟨c7_amended.1 randZero 0, c7_amended.2 storeAll randZero (fun _ _ => rfl)⟩

/-! ## Claim C8 -/

/-- Claim C8: a single identity issuing sequential requests inside one window
is admitted on each of the first 10 requests, each admission storing the
counter incremented by one; the 11th request is rejected with the
rate-limit-exceeded error, and the stored counter is unchanged by the
rejection. -/
theorem c8_rate_limiter :
    (∀ k, k < 10 → checkRateLimit (rateSeq k) = Except.ok (toString (k + 1)) ∧
      rateSeq (k + 1) = some (toString (k + 1))) ∧
    checkRateLimit (rateSeq 10) =
      Except.error "Rate limit exceeded. Please try again later." ∧
    rateSeq 11 = rateSeq 10 := by
  refine ⟨by decide, by decide, by decide⟩

/-- Claim C8 (witness): the fourth request of the window is admitted and
stores `"4"`. -/
theorem c8_rate_limiter_witness :
    checkRateLimit (rateSeq 3) = Except.ok (toString 4) ∧
    rateSeq 4 = some (toString 4) :=
  c8_rate_limiter.1 3 (by decide)

/-! ## Claim C9 -/

/-- A store in which no key exists. -/
def storeNone : String → Bool := fun _ => false

/-- Claim C9 (counterexample): the claim says a submission is rejected
without parse exactly when it is empty, oversized or rate-limited.  With a
store in which every candidate ID collides, the non-empty, small,
non-rate-limited submission `"hello"` is rejected by ID-allocation
exhaustion — a fourth rejection cause the claim omits. -/
theorem c9_counterexample :
    (handlePost none (some "hello") none ⟨none, none⟩ storeAll randZero).outcome =
      PostOutcome.idFailed ∧
    rateBlocked none = false ∧
    preprocessContent (some "hello") = "hello" ∧
    ¬ 1024 * 1024 < (preprocessContent (some "hello")).length := by
  refine ⟨by decide, by decide, by decide, by decide⟩

/-- Claim C9 (amended): a submission is rejected without parse being invoked
exactly when the rate limiter rejects the client, the normalized content is
empty, it exceeds the 1 MiB ceiling, or ID allocation exhausts its 10
attempts; every other submission reaches parse and is stored as a record
containing the parse result of its normalized content. -/
theorem c9_amended (rl body : Option String) (jp : Option Json) (hr : HRResult)
    (store : String → Bool) (r : Nat → Fin idChars.length) :
    (((handlePost rl body jp hr store r).outcome = PostOutcome.rateLimited ∨
      (handlePost rl body jp hr store r).outcome = PostOutcome.emptyContent ∨
      (handlePost rl body jp hr store r).outcome = PostOutcome.tooLarge ∨
      (handlePost rl body jp hr store r).outcome = PostOutcome.idFailed)
     ↔ (rateBlocked rl = true ∨ preprocessContent body = "" ∨
        1024 * 1024 < (preprocessContent body).length ∨
        (generateUniqueId store r).1.isOk = false)) ∧
    ((rateBlocked rl = false ∧ preprocessContent body ≠ "" ∧
      ¬ 1024 * 1024 < (preprocessContent body).length ∧
      (generateUniqueId store r).1.isOk = true) →
      ∃ id fmt, (handlePost rl body jp hr store r).outcome =
        PostOutcome.stored id (parseHtmlContent jp hr (preprocessContent body))
          (preprocessContent body) fmt) := by
  unfold handlePost checkRateLimit
  cases hb : rateBlocked rl with
  | true =>
    simp only [if_true]
    constructor
    · simp
    · rintro ⟨hb', -⟩
      exact Bool.noConfusion hb'
  | false =>
    simp only [Bool.false_eq_true, if_false]
    by_cases hc : preprocessContent body = ""
    · rw [if_pos hc]
      constructor
      · simp [hc]
      · rintro ⟨-, hne, -, -⟩
        exact absurd hc hne
    · rw [if_neg hc]
      by_cases hsz : 1024 * 1024 < (preprocessContent body).length
      · rw [if_pos hsz]
        constructor
        · simp [hsz]
        · rintro ⟨-, -, hsz', -⟩
          exact absurd hsz hsz'
      · rw [if_neg hsz]
        cases hg : (generateUniqueId store r).1 with
        | error e =>
          exact ⟨⟨fun _ => Or.inr (Or.inr (Or.inr rfl)),
            fun _ => Or.inr (Or.inr (Or.inr rfl))⟩,
            fun hyp => Bool.noConfusion hyp.2.2.2⟩
        | ok id =>
          constructor
          · constructor
            · rintro (h | h | h | h) <;> exact PostOutcome.noConfusion h
            · rintro (h | h | h | h)
              · exact h.elim
              · exact absurd h hc
              · exact absurd h hsz
              · exact Bool.noConfusion h
          · intro hyp
            exact ⟨id, _, rfl⟩

/-- Claim C9 (witness): the amended claim's positive side at a collision-free
store — `"hello"` reaches parse and is stored. -/
theorem c9_amended_witness :
    ∃ id fmt, (handlePost none (some "hello") none ⟨none, none⟩ storeNone randZero).outcome =
      PostOutcome.stored id
        (parseHtmlContent none ⟨none, none⟩ (preprocessContent (some "hello")))
        (preprocessContent (some "hello")) fmt :=
  (c9_amended none (some "hello") none ⟨none, none⟩ storeNone randZero).2
    ⟨by decide, by decide, by decide, by decide⟩

/-! ## Claim C10 -/

/-- Claim C10: every POST that passes the rate-limit check stores the
incremented counter (one unit of quota) before content validation, whatever
happens afterwards — the final rate counter is the incremented value even
when the request is then rejected as empty, oversized, or by ID allocation. -/
theorem c10_quota (rl body : Option String) (jp : Option Json) (hr : HRResult)
    (store : String → Bool) (r : Nat → Fin idChars.length) (v : String)
    (h : checkRateLimit rl = Except.ok v) :
    (handlePost rl body jp hr store r).rateCounter = some v ∧
    v = toString (rateValue rl + 1) := by
  constructor
  · unfold handlePost
    rw [h]
    by_cases h1 : preprocessContent body = ""
    · simp [h1]
    · by_cases h2 : 1024 * 1024 < (preprocessContent body).length
      · simp [h1, h2]
      · cases hg : (generateUniqueId store r).1 <;> simp [h1, h2, hg]
  · unfold checkRateLimit at h
    split at h
    · exact absurd h (by simp)
    · simp only [Except.ok.injEq] at h
      exact h.symm

/-- Claim C10 (witness): an empty-body request from a fresh identity still
stores counter `"1"`. -/
theorem c10_quota_witness :
    (handlePost none (some "") none ⟨none, none⟩ storeAll randZero).rateCounter =
      some "1" ∧
    "1" = toString (rateValue none + 1) :=
  c10_quota none (some "") none ⟨none, none⟩ storeAll randZero "1" (by decide)

/-! ## Claim C2 (witness) -/

/-- Claim C2 (witness): the sanitizer fixes `<b>hello</b>`, so that string
contains none of the dangerous constructs. -/
theorem c2_amended_witness :
    NoPat (tagBlockM "script".data) "<b>hello</b>".data ∧
    NoPat (tagBlockM "style".data) "<b>hello</b>".data ∧
    NoPat (tagBlockM "iframe".data) "<b>hello</b>".data ∧
    NoPat (tagBlockM "noscript".data) "<b>hello</b>".data ∧
    NoPat (onAttrM '"') "<b>hello</b>".data ∧
    NoPat (onAttrM '\'') "<b>hello</b>".data ∧
    NoPat jsUriM "<b>hello</b>".data :=
  c2_amended "<b>hello</b>".data (by decide)

end ShareGPT
